import Mathlib

/-!
Verification development for the table/game engine of The Boss 2.0
(src/src/engine/index.ts).  The engine is shallowly embedded: the mutable
class becomes an explicit `EngineState`, every method becomes a function
`EngineState → EngineState × List EngineEvent`, the mutually recursive
phase-advance cluster is given an explicit fuel parameter, and the
uniform random shuffle is parameterised by the stream of swap indices the
Fisher-Yates loop consumes.
-/

set_option maxRecDepth 100000

namespace TheBoss

/-- The four suits (shared/types.ts `Suit`). -/
inductive Suit
  | hearts | diamonds | clubs | spades
deriving DecidableEq

/-- The thirteen ranks (shared/types.ts `Rank`); numeric ranks are prefixed with `r`. -/
inductive Rank
  | A | r2 | r3 | r4 | r5 | r6 | r7 | r8 | r9 | r10 | J | Q | K
deriving DecidableEq

def rankStr : Rank → String
  | .A => "A" | .r2 => "2" | .r3 => "3" | .r4 => "4" | .r5 => "5" | .r6 => "6"
  | .r7 => "7" | .r8 => "8" | .r9 => "9" | .r10 => "10" | .J => "J" | .Q => "Q" | .K => "K"

def suitStr : Suit → String
  | .hearts => "hearts" | .diamonds => "diamonds" | .clubs => "clubs" | .spades => "spades"

/-- A card (shared/types.ts `Card`): unique id, rank and suit. -/
structure Card where
  id : String
  rank : Rank
  suit : Suit
deriving DecidableEq

/-- Combo card mode (shared/types.ts `ComboMode`). -/
inductive ComboMode
  | low | high
deriving DecidableEq

/-- A provisional combo choice (shared/types.ts `ComboSelection`). -/
structure ComboSelection where
  cardId : String
  mode : ComboMode
deriving DecidableEq

/-- Game phase (shared/types.ts `Phase`). -/
inductive Phase
  | waiting | rush | charge | stomp | combo | oxtail | showdown | hand_end
deriving DecidableEq

/-- Per-player engine state (engine `EnginePlayer`). -/
structure EnginePlayer where
  id : String
  username : String
  seatIndex : Option Nat
  stack : Int
  entryHand : Nat
  hand : List Card
  inHand : Bool
  hasFolded : Bool
  betThisRound : Int
  totalBet : Int
  comboSelection : List ComboSelection
  comboRevealed : Option (List Card)
  isDealer : Bool
  isSmallBlind : Bool
  isBigBlind : Bool
  lastAction : Option String
deriving DecidableEq

/-- One payout line of a hand result. -/
structure Winner where
  playerId : String
  username : String
  amount : Int
deriving DecidableEq

/-- Terminal result of a hand (shared/types.ts `HandResult`). -/
structure HandResult where
  winners : List Winner
  bossTotal : Int
  description : String
deriving DecidableEq

/-- Outbound engine events; snapshot and private payloads are derived
projections of the state and carry no extra information for the claims,
so only their occurrence is recorded. -/
inductive EngineEvent
  | snapshotEv
  | privateEv (playerId : String)
  | resultEv (result : HandResult)
  | errorEv (playerId : Option String) (message : String)
deriving DecidableEq

/-- Whether an event is a rejection notice. -/
def isErrorEvent : EngineEvent → Bool
  | .errorEv _ _ => true
  | _ => false

def SEAT_COUNT : Nat := 6
def STARTING_STACK : Int := 500
def SMALL_BLIND : Int := 5
def BIG_BLIND : Int := 10
def RAISE_INCREMENT : Int := 10

/-- The whole mutable state of the `GameEngine` class. -/
structure EngineState where
  players : List EnginePlayer
  seats : List (Option String)
  handNumber : Nat
  deck : List Card
  bossCards : List Card
  bossRevealedCount : Nat
  bossVisible : Bool
  smallBlindSeat : Option Nat
  phase : Phase
  dealerSeat : Option Nat
  currentBet : Int
  minimumRaise : Int
  pot : Int
  sidePot : Int
  actingSeat : Option Nat
  message : String
  actedThisRound : List Nat
  awaitingCombo : List String
  comboQueue : List Nat
  comboIndex : Nat
  lastResult : Option HandResult
deriving DecidableEq

/-- The initial state of a fresh `GameEngine`. -/
def initialState : EngineState :=
  { players := []
    seats := [none, none, none, none, none, none]
    handNumber := 0
    deck := []
    bossCards := []
    bossRevealedCount := 0
    bossVisible := false
    smallBlindSeat := none
    phase := .waiting
    dealerSeat := none
    currentBet := 0
    minimumRaise := RAISE_INCREMENT
    pot := 0
    sidePot := 0
    actingSeat := none
    message := "Waiting for players"
    actedThisRound := []
    awaitingCombo := []
    comboQueue := []
    comboIndex := 0
    lastResult := none }

/-- A state transition together with the events it emits. -/
abbrev EStep := EngineState × List EngineEvent

/-- Sequence two event-emitting transitions. -/
def seqE (r : EStep) (f : EngineState → EStep) : EStep :=
  let r2 := f r.1
  (r2.1, r.2 ++ r2.2)

def findPlayer (s : EngineState) (pid : String) : Option EnginePlayer :=
  s.players.find? (fun p => p.id = pid)

def updPlayer (s : EngineState) (pid : String) (f : EnginePlayer → EnginePlayer) :
    EngineState :=
  { s with players := s.players.map (fun p => if p.id = pid then f p else p) }

def getPlayerBySeat (s : EngineState) (seatIndex : Nat) : Option EnginePlayer :=
  match s.seats.getD (seatIndex - 1) none with
  | none => none
  | some pid => findPlayer s pid

def isHandActive (s : EngineState) : Bool :=
  s.phase ≠ .waiting

def activePlayers (s : EngineState) : List EnginePlayer :=
  s.players.filter (fun p => p.inHand && !p.hasFolded)

/-- Sum of all players' total bets (engine `totalPot`). -/
def totalPot (s : EngineState) : Int :=
  s.players.foldl (fun total p => total + p.totalBet) 0

/-- Card valuation for combos (engine `getCardValue`): A=1, J=11, Q=12, K=13,
numeric ranks at face value. -/
def getCardValue : Rank → Int
  | .A => 1 | .J => 11 | .Q => 12 | .K => 13
  | .r2 => 2 | .r3 => 3 | .r4 => 4 | .r5 => 5 | .r6 => 6
  | .r7 => 7 | .r8 => 8 | .r9 => 9 | .r10 => 10

/-- Boss card valuation (engine `getBossCardValue`): the Ace is always low. -/
def getBossCardValue (r : Rank) : Int :=
  if r = .A then 1 else getCardValue r

def findCardInHand (player : EnginePlayer) (cardId : String) : Option Card :=
  player.hand.find? (fun card => card.id = cardId)

/-- Engine `computeComboTotal`: selections referencing cards not in hand are
skipped; an Ace is worth 11 in high mode and 1 otherwise; every other rank
uses `getCardValue`. -/
def computeComboTotal (player : EnginePlayer) (selections : List ComboSelection) : Int :=
  selections.foldl
    (fun total selection =>
      match findCardInHand player selection.cardId with
      | none => total
      | some card =>
        if card.rank = .A then total + (if selection.mode = .high then 11 else 1)
        else total + getCardValue card.rank)
    0

/-- The revealed prefix of the boss hand. -/
def revealedBoss (s : EngineState) : List Card :=
  s.bossCards.take s.bossRevealedCount

/-- Engine `computeBossTotal`: value of the revealed boss prefix, Ace low. -/
def computeBossTotal (s : EngineState) : Int :=
  (revealedBoss s).foldl (fun sum card => sum + getBossCardValue card.rank) 0

/-- Suit multiset of a card list, as a count function (the `bossCounts` map
built by engine `countSuitMatches`). -/
def suitCountsOf (cards : List Card) : Suit → Nat :=
  cards.foldl (fun m card => fun su => if su = card.suit then m su + 1 else m su)
    (fun _ => 0)

/-- The matching loop of engine `countSuitMatches`: walk the player's cards,
crediting a match and decrementing the remaining count whenever boss cards
of that suit remain. -/
def greedyMatch : List Card → (Suit → Nat) → Nat
  | [], _ => 0
  | card :: rest, m =>
    if m card.suit > 0 then
      1 + greedyMatch rest (fun su => if su = card.suit then m su - 1 else m su)
    else
      greedyMatch rest m

/-- Engine `countSuitMatches` against the revealed boss prefix. -/
def countSuitMatches (s : EngineState) (cards : List Card) : Nat :=
  greedyMatch cards (suitCountsOf (revealedBoss s))

/-- Engine `sanitizeSelections`: de-duplicate by card id, drop references to
cards not in hand, force mode low for everything except an Ace explicitly
marked high. -/
def sanitizeGo (player : EnginePlayer) :
    List ComboSelection → List String → List ComboSelection
  | [], _ => []
  | selection :: rest, seen =>
    if selection.cardId ∈ seen then sanitizeGo player rest seen
    else
      match findCardInHand player selection.cardId with
      | none => sanitizeGo player rest seen
      | some card =>
        { cardId := card.id
          mode := if card.rank = .A ∧ selection.mode = .high then .high else .low } ::
          sanitizeGo player rest (card.id :: seen)

def sanitizeSelections (player : EnginePlayer) (selections : List ComboSelection) :
    List ComboSelection :=
  sanitizeGo player selections []

/-- Seat to the left (engine `getNextSeatIndex`): seat N maps to (N mod 6)+1. -/
def nextSeatIndex (seat : Nat) : Nat :=
  (seat % SEAT_COUNT) + 1

/-- Engine `findSeatInDirection`: walk at most `SEAT_COUNT` seats clockwise
from `start` (inclusive or exclusive) looking for a seat whose occupant
satisfies the predicate. -/
def seatScan (s : EngineState) (pred : Option EnginePlayer → Bool) :
    Nat → Nat → Option Nat
  | _, 0 => none
  | seat, n + 1 =>
    if pred (getPlayerBySeat s seat) then some seat
    else seatScan s pred (nextSeatIndex seat) n

def findSeatInDirection (s : EngineState) (start : Option Nat)
    (pred : Option EnginePlayer → Bool) (includeStart : Bool) : Option Nat :=
  match start with
  | none => none
  | some st =>
    seatScan s pred (if includeStart then st else nextSeatIndex st) SEAT_COUNT

def getNextOccupiedSeat (s : EngineState) (start : Nat) : Option Nat :=
  findSeatInDirection s (some start) (fun player => player.isSome) false

/-- Engine `findNextActingSeat`: next seat whose occupant is in the hand, not
folded, and has a positive stack. -/
def findNextActingSeat (s : EngineState) (start : Option Nat) (includeStart : Bool) :
    Option Nat :=
  findSeatInDirection s start
    (fun player =>
      match player with
      | none => false
      | some p => p.inHand && !p.hasFolded && p.stack > 0)
    includeStart

def getSeatLeftOfDealer (s : EngineState) : Nat :=
  match s.dealerSeat with
  | none => 1
  | some d => (getNextOccupiedSeat s d).getD d

def getEligibleSeatedPlayers (s : EngineState) : List EnginePlayer :=
  s.seats.foldr
    (fun slot list =>
      match slot with
      | none => list
      | some pid =>
        match findPlayer s pid with
        | none => list
        | some p =>
          if p.seatIndex.isSome ∧ s.handNumber ≥ p.entryHand then p :: list else list)
    []

/-- Engine `updateSidePotValues`: recompute main and side pot after a
commitment.  `cap` is the least total bet among zero-stack active players. -/
def updateSidePotValues (s : EngineState) : EngineState :=
  let allInPlayers := (activePlayers s).filter (fun p => p.stack = 0)
  match allInPlayers with
  | [] => { s with pot := totalPot s, sidePot := 0 }
  | q :: rest =>
    let cap := rest.foldl (fun acc p => min acc p.totalBet) q.totalBet
    let acc := s.players.foldl
      (fun (acc : Int × Int) p =>
        (acc.1 + min p.totalBet cap,
         acc.2 + (if p.totalBet > cap then p.totalBet - cap else 0)))
      (0, 0)
    { s with pot := acc.1, sidePot := acc.2 }

/-- Engine `commitAmount`: contribute `min stack amount`, book it in
`betThisRound` and `totalBet`, then refresh pot and side pot. -/
def commitAmount (s : EngineState) (pid : String) (amount : Int) : EngineState :=
  let s' := updPlayer s pid
    (fun p =>
      let contribution := min p.stack amount
      { p with stack := p.stack - contribution
               betThisRound := p.betThisRound + contribution
               totalBet := p.totalBet + contribution })
  updateSidePotValues { s' with pot := totalPot s' }

/-- Engine `callContribution`. -/
def callContribution (s : EngineState) (pid : String) : EngineState :=
  match findPlayer s pid with
  | none => s
  | some p =>
    let needed := s.currentBet - p.betThisRound
    if needed ≤ 0 then s else commitAmount s pid needed

def allRanks : List Rank :=
  [.A, .r2, .r3, .r4, .r5, .r6, .r7, .r8, .r9, .r10, .J, .Q, .K]

def allSuits : List Suit :=
  [.hearts, .diamonds, .clubs, .spades]

/-- The deck as first laid out by engine `buildDeck`, before shuffling. -/
def freshDeck : List Card :=
  (((allSuits.map (fun su => allRanks.map (fun r => (r, su)))).flatten).enum).map
    (fun e =>
      { id := rankStr e.2.1 ++ "-" ++ suitStr e.2.2 ++ "-" ++ toString e.1
        rank := e.2.1
        suit := e.2.2 })

def listSwap (l : List Card) (i j : Nat) : List Card :=
  match l[i]?, l[j]? with
  | some a, some b => (l.set i b).set j a
  | _, _ => l

/-- The Fisher-Yates loop of engine `buildDeck`, with the random draw
`Math.floor(Math.random() * (i + 1))` replaced by the next entry of the
supplied index stream reduced mod (i+1); any real run of the loop
corresponds to some stream. -/
def shuffleGo (js : List Nat) : List Card → Nat → Nat → List Card
  | deck, 0, _ => deck
  | deck, i + 1, k => shuffleGo js (listSwap deck (i + 1) ((js.getD k 0) % (i + 2))) i (k + 1)

def buildDeck (js : List Nat) : List Card :=
  shuffleGo js freshDeck (freshDeck.length - 1) 0

/-- Engine `drawCards`: remove up to `count` cards from the top (the array
end) of the deck; returns the drawn cards and the remaining deck. -/
def drawCardsFrom : Nat → List Card → List Card × List Card
  | 0, deck => ([], deck)
  | n + 1, deck =>
    match deck.getLast? with
    | none => ([], deck)
    | some card =>
      let r := drawCardsFrom n deck.dropLast
      (card :: r.1, r.2)

/-- Engine `updatePrivate`: emits one private-state event when the player
exists (payload elided). -/
def updatePrivate (pid : String) (s : EngineState) : EStep :=
  match findPlayer s pid with
  | none => (s, [])
  | some _ => (s, [.privateEv pid])

/-- Engine `broadcast`: one private event per joined player, then the
public snapshot (payloads elided). -/
def broadcast (s : EngineState) : EStep :=
  (s, s.players.map (fun p => .privateEv p.id) ++ [.snapshotEv])

def getPhaseLabel (s : EngineState) : String :=
  match s.phase with
  | .rush => "The Rush"
  | .charge => "The Charge"
  | .stomp => "The Stomp"
  | .combo => "Submit combos"
  | .oxtail => "Oxtail betting"
  | _ => "Waiting for dealer"

def updateActionMessage (s : EngineState) : EngineState :=
  match s.actingSeat with
  | some seat =>
    match getPlayerBySeat s seat with
    | some player =>
      let comboSuffix := if s.phase = .combo then " – Submit combo" else ""
      { s with message := "Action to " ++ player.username ++ comboSuffix }
    | none => { s with message := getPhaseLabel s }
  | none => { s with message := getPhaseLabel s }

/-- Engine `haveAllRequiredPlayersActed`: every seated, active, non-zero
stack player must be in the acted set. -/
def haveAllRequiredPlayersActed (s : EngineState) : Bool :=
  s.players.all (fun p =>
    if !p.inHand || p.hasFolded then true
    else
      match p.seatIndex with
      | none => true
      | some seat => if p.stack = 0 then true else s.actedThisRound.contains seat)

/-- Engine `isBettingRoundComplete`. -/
def isBettingRoundComplete (s : EngineState) : Bool :=
  let active := activePlayers s
  if active.length ≤ 1 then true
  else if !haveAllRequiredPlayersActed s then false
  else active.all (fun p => p.betThisRound == s.currentBet || p.stack == 0)

/-- Engine `markSeatActed`. -/
def markSeatActed (seat : Option Nat) (reset : Bool) (s : EngineState) : EngineState :=
  match seat with
  | none => s
  | some seat =>
    let acted := if reset then [] else s.actedThisRound
    { s with actedThisRound := if acted.contains seat then acted else acted ++ [seat] }

/-- The state updates performed by engine `finishBettingRound` before it
branches on the phase: acting pointer and acted set cleared, every
`betThisRound` zeroed, current bet zeroed, minimum raise restored. -/
def roundReset (s : EngineState) : EngineState :=
  { s with actingSeat := none
           actedThisRound := []
           players := s.players.map (fun p => { p with betThisRound := 0 })
           currentBet := 0
           minimumRaise := RAISE_INCREMENT }

def comboOrderGo (s : EngineState) : Nat → Nat → List Nat
  | _, 0 => []
  | seat, n + 1 =>
    let rest := comboOrderGo s (nextSeatIndex seat) n
    match getPlayerBySeat s seat with
    | some p => if p.inHand && !p.hasFolded then seat :: rest else rest
    | none => rest

/-- Engine `buildComboOrder`: active seats clockwise from the small blind. -/
def buildComboOrder (s : EngineState) : List Nat :=
  comboOrderGo s
    (match s.smallBlindSeat with
     | some sb => sb
     | none => getSeatLeftOfDealer s)
    SEAT_COUNT

def comboScan (s : EngineState) : List Nat → Nat → Option (Nat × Nat)
  | [], _ => none
  | seat :: rest, idx =>
    match getPlayerBySeat s seat with
    | some p =>
      if s.awaitingCombo.contains p.id && p.inHand && !p.hasFolded then some (idx, seat)
      else comboScan s rest (idx + 1)
    | none => comboScan s rest (idx + 1)

/-- Engine `setNextComboActor`: scan the queue from `startIndex` for the
next waiting active player; returns the updated state and whether an actor
was found. -/
def setNextComboActor (s : EngineState) (startIndex : Nat) : EngineState × Bool :=
  match comboScan s (s.comboQueue.drop startIndex) startIndex with
  | some (idx, seat) =>
    (updateActionMessage { s with comboIndex := idx, actingSeat := some seat }, true)
  | none =>
    (updateActionMessage { s with comboIndex := s.comboQueue.length, actingSeat := none }, false)

def rotateDealer (s : EngineState) : EngineState :=
  match s.dealerSeat with
  | none =>
    match getNextOccupiedSeat s 1 with
    | some seat => { s with dealerSeat := some seat }
    | none => s
  | some d =>
    match getNextOccupiedSeat s d with
    | none => s
    | some next =>
      let s := { s with dealerSeat := some next }
      { s with players := s.players.map (fun p => { p with isDealer := p.seatIndex == some next }) }

/-- Engine `endHand`. -/
def endHand (s : EngineState) : EStep :=
  let s := { s with phase := .waiting, bossCards := [], bossRevealedCount := 0,
                    bossVisible := false, actingSeat := none,
                    message := "Waiting for dealer", awaitingCombo := [],
                    comboQueue := [], comboIndex := 0 }
  let s := rotateDealer s
  let s := { s with players := s.players.map (fun p =>
    { p with inHand := false, hasFolded := false, comboSelection := [],
             comboRevealed := none, betThisRound := 0 }) }
  broadcast s

/-- Engine `resolveHandByFold`. -/
def resolveHandByFold (s : EngineState) : EStep :=
  match (activePlayers s).head? with
  | none => endHand s
  | some recipient =>
    let award := totalPot s
    let s := updPlayer s recipient.id (fun p => { p with stack := p.stack + award })
    let result : HandResult :=
      { winners := [{ playerId := recipient.id, username := recipient.username, amount := award }]
        bossTotal := computeBossTotal s
        description := recipient.username ++ " wins by default" }
    let s := { s with lastResult := some result }
    seqE (s, [.resultEv result]) endHand

/-- The award loop of engine `splitPot`. -/
def awardEach (pids : List String) (award : Int) (s : EngineState) : EngineState :=
  pids.foldl
    (fun s pid => updPlayer s pid (fun p => { p with stack := p.stack + award })) s

/-- Engine `splitPot`: integer-floored even split among the given players. -/
def splitPot (pids : List String) (s : EngineState) : EStep :=
  let award := Int.fdiv (totalPot s) (pids.length : Int)
  let s' := awardEach pids award s
  let result : HandResult :=
    { winners := pids.map (fun pid =>
        { playerId := pid
          username := ((findPlayer s pid).map (fun p => p.username)).getD ""
          amount := award })
      bossTotal := computeBossTotal s'
      description := "Split pot among " ++ toString pids.length ++ " players" }
  let s' := { s' with lastResult := some result }
  seqE (s', [.resultEv result]) endHand

/-- Engine `awardPot`. -/
def awardPot (pid : String) (s : EngineState) : EStep :=
  let total := totalPot s
  let uname := ((findPlayer s pid).map (fun p => p.username)).getD ""
  let s := updPlayer s pid (fun p => { p with stack := p.stack + total })
  let result : HandResult :=
    { winners := [{ playerId := pid, username := uname, amount := total }]
      bossTotal := computeBossTotal s
      description := uname ++ " wins " ++ toString total }
  let s := { s with lastResult := some result }
  seqE (s, [.resultEv result]) endHand

/-- One row of the table built inside engine `evaluateCombos`. -/
structure EvalEntry where
  playerId : String
  total : Int
  diff : Int
  under : Bool
  suitMatches : Nat
deriving DecidableEq

def evalEntry (s : EngineState) (p : EnginePlayer) : EvalEntry :=
  let cards := p.comboSelection.filterMap (fun selection => findCardInHand p selection.cardId)
  let total := computeComboTotal p p.comboSelection
  let bossTotal := computeBossTotal s
  { playerId := p.id
    total := total
    diff := |bossTotal - total|
    under := decide (total ≤ bossTotal)
    suitMatches := countSuitMatches s cards }

/-- The three-key comparator passed to `evaluated.sort` in
engine `evaluateCombos`. -/
def cmpEval (a b : EvalEntry) : Int :=
  if a.diff ≠ b.diff then a.diff - b.diff
  else if a.under ≠ b.under then (if a.under then -1 else 1)
  else if a.suitMatches ≠ b.suitMatches then (b.suitMatches : Int) - (a.suitMatches : Int)
  else 0

/-- Stable insertion used to model the stable JavaScript `Array.sort`:
`x` goes after every element strictly smaller under the comparator and
before the first element that is not. -/
def insertBefore (lt : α → α → Bool) (x : α) : List α → List α
  | [] => [x]
  | y :: l => if lt y x then y :: insertBefore lt x l else x :: y :: l

def stableSortBy (lt : α → α → Bool) : List α → List α
  | [] => []
  | x :: l => insertBefore lt x (stableSortBy lt l)

def sortEntries (l : List EvalEntry) : List EvalEntry :=
  stableSortBy (fun a b => cmpEval a b < 0) l

/-- The contender rows of engine `evaluateCombos` in player order. -/
def evalEntries (s : EngineState) : List EvalEntry :=
  ((activePlayers s).filter (fun p => !p.hasFolded)).map (evalEntry s)

/-- The head of the sorted table (`evaluated[0]` after the sort). -/
def evalBest (s : EngineState) : Option EvalEntry :=
  (sortEntries (evalEntries s)).head?

/-- The tie set of engine `evaluateCombos`: rows agreeing with the best on
all three keys. -/
def evalTies (s : EngineState) : List EvalEntry :=
  match evalBest s with
  | none => []
  | some best =>
    (evalEntries s).filter (fun e =>
      e.diff == best.diff && e.under == best.under && e.suitMatches == best.suitMatches)

/-- The state updates of engine `startOxtail` before it restarts betting:
enter the oxtail phase, move one card from the deck to the boss hand, and
reveal it. -/
def oxtailCore (s : EngineState) : EngineState :=
  let s : EngineState := { s with phase := .oxtail }
  let r := drawCardsFrom 1 s.deck
  { s with deck := r.2
           bossCards := s.bossCards ++ r.1
           bossRevealedCount := s.bossRevealedCount + 1 }

/-- The fallback anchor of engine `startBettingRound` when no reference
seat is supplied: the small-blind seat, else the seat left of the dealer. -/
def anchorSeat (s : EngineState) : Option Nat :=
  match s.smallBlindSeat with
  | some sb => some sb
  | none => some (getSeatLeftOfDealer s)

/-- The seat a betting round starts from, given the caller's reference. -/
def startSeatOf (referenceSeat : Option Nat) (s : EngineState) : Option Nat :=
  match referenceSeat with
  | some r => some r
  | none => anchorSeat s

/-- Call tags for the mutually recursive phase-advance cluster
(`finishBettingRound` / `startBettingRound` / `enterComboPhase` /
`evaluateCombos` / `startOxtail` / `advanceTurn`). -/
inductive Cascade
  | finishRound
  | finishDispatch
  | startRound (referenceSeat : Option Nat)
  | enterCombo (oxtail : Bool)
  | evalCombos
  | oxtailStart
  | advance

/-- The phase-advance cluster, with an explicit fuel bound on the mutual
call depth.  `finishDispatch` is the tail of `finishBettingRound` after
`roundReset`; every branch is a direct transcription of the source. -/
def runCascade : Nat → Cascade → EngineState → EStep
  | 0, _, s => (s, [])
  | n + 1, c, s =>
    match c with
    | .finishRound => runCascade n .finishDispatch (roundReset s)
    | .finishDispatch =>
      if (activePlayers s).length ≤ 1 then resolveHandByFold s
      else
        match s.phase with
        | .rush =>
          runCascade n (.startRound s.smallBlindSeat)
            { s with phase := .charge, bossRevealedCount := 4 }
        | .charge =>
          runCascade n (.startRound s.smallBlindSeat)
            { s with phase := .stomp, bossRevealedCount := 5 }
        | .stomp => runCascade n (.enterCombo false) s
        | .oxtail => runCascade n (.enterCombo true) s
        | _ => (s, [])
    | .startRound referenceSeat =>
      let startSeat : Option Nat := startSeatOf referenceSeat s
      let s := { s with actedThisRound := [] }
      let acting := findNextActingSeat s startSeat true
      let s := { s with actingSeat := acting }
      match acting with
      | none => runCascade n .finishRound s
      | some _ => (updateActionMessage s, [])
    | .enterCombo oxtail =>
      let s : EngineState := { s with phase := .combo, awaitingCombo := [] }
      let act : List EnginePlayer := activePlayers s
      let s : EngineState := { s with awaitingCombo := act.map (fun p => p.id) }
      let s : EngineState :=
        if oxtail then s
        else
          { s with players := s.players.map (fun p =>
              if p.inHand && !p.hasFolded then
                { p with comboSelection := [], comboRevealed := none }
              else p) }
      let s : EngineState := { s with comboQueue := buildComboOrder s, comboIndex := 0 }
      if s.awaitingCombo.isEmpty then
        runCascade n .evalCombos (updateActionMessage { s with actingSeat := none })
      else
        match setNextComboActor s 0 with
        | (s, true) => broadcast s
        | (s, false) => runCascade n .evalCombos s
    | .evalCombos =>
      let contenders := (activePlayers s).filter (fun p => !p.hasFolded)
      if contenders.isEmpty then resolveHandByFold s
      else
        let ties := evalTies s
        if ties.length > 1 then
          if s.deck.isEmpty then splitPot (ties.map (fun e => e.playerId)) s
          else runCascade n .oxtailStart s
        else
          match evalBest s with
          | some best => awardPot best.playerId s
          | none => (s, [])
    | .oxtailStart =>
      let s := oxtailCore s
      runCascade n (.startRound s.smallBlindSeat) s
    | .advance =>
      match s.actingSeat with
      | none => (s, [])
      | some currentSeat =>
        if isBettingRoundComplete s then runCascade n .finishRound s
        else
          let next := findNextActingSeat s (some currentSeat) false
          let s := { s with actingSeat := next }
          match next with
          | none => runCascade n .finishRound s
          | some _ => (updateActionMessage s, [])

/-- Fuel large enough for every reachable cascade (each betting phase and
each oxtail round costs a bounded number of mutual calls, and oxtail
rounds consume the 52-card deck). -/
def FUEL : Nat := 1000

def finishBettingRound (s : EngineState) : EStep := runCascade FUEL .finishRound s

def evaluateCombos (s : EngineState) : EStep := runCascade FUEL .evalCombos s

def startOxtail (s : EngineState) : EStep := runCascade FUEL .oxtailStart s

/-- Engine `join`. -/
def join (s : EngineState) (pid username : String) : EStep :=
  let s : EngineState :=
    match findPlayer s pid with
    | none =>
      { s with players := s.players ++
          [{ id := pid
             username := username
             seatIndex := none
             stack := STARTING_STACK
             entryHand := s.handNumber + (if isHandActive s then 1 else 0)
             hand := []
             inHand := false
             hasFolded := false
             betThisRound := 0
             totalBet := 0
             comboSelection := []
             comboRevealed := none
             isDealer := false
             isSmallBlind := false
             isBigBlind := false
             lastAction := none }] }
    | some _ => updPlayer s pid (fun p => { p with username := username })
  seqE (updatePrivate pid s) broadcast

/-- Vacating the previous seat inside engine `seatTake`. -/
def vacateOldSeat (seats : List (Option String)) (player : EnginePlayer) :
    List (Option String) :=
  match player.seatIndex with
  | some old => seats.set (old - 1) none
  | none => seats

/-- The first player ever to take a seat becomes dealer (tail of engine
`seatTake`). -/
def assignFirstDealer (s : EngineState) (pid : String) (seatIndex : Nat) : EngineState :=
  match s.dealerSeat with
  | some _ => s
  | none =>
    updPlayer { s with dealerSeat := some seatIndex } pid
      (fun p => { p with isDealer := true })

/-- Engine `seatTake`.  (`isHandActive` depends only on the phase, so the
entry stamp may be computed before the seat array update.) -/
def seatTake (s : EngineState) (pid : String) (seatIndex : Nat) : EStep :=
  match findPlayer s pid with
  | none => (s, [.errorEv (some pid) "Join first"])
  | some player =>
    let seatSlot := seatIndex - 1
    let cur := s.seats.getD seatSlot none
    if cur.isSome && cur ≠ some pid then
      (s, [.errorEv (some pid) "Seat taken"])
    else
      let entry := s.handNumber + (if isHandActive s then 1 else 0)
      let s : EngineState :=
        { s with seats := (vacateOldSeat s.seats player).set seatSlot (some pid) }
      let s : EngineState := updPlayer s pid (fun p =>
        { p with seatIndex := some seatIndex, entryHand := entry })
      broadcast (assignFirstDealer s pid seatIndex)

/-- Engine `resetPlayersForHand`. -/
def resetPlayersForHand (pids : List String) (s : EngineState) : EngineState :=
  let s : EngineState := { s with players := s.players.map (fun p =>
    { p with inHand := false, hasFolded := false, betThisRound := 0, totalBet := 0,
             comboSelection := [], comboRevealed := none, isSmallBlind := false,
             isBigBlind := false, hand := [], lastAction := none }) }
  { s with players := s.players.map (fun p =>
    if pids.contains p.id then { p with inHand := true } else p) }

/-- Engine `dealHands`: seven cards to each participant, in seat order. -/
def dealHands (pids : List String) (s : EngineState) : EngineState :=
  pids.foldl
    (fun s pid =>
      let r := drawCardsFrom 7 s.deck
      updPlayer { s with deck := r.2 } pid (fun p => { p with hand := r.1 }))
    s

/-- Engine `assignBlinds`. -/
def assignBlinds (pids : List String) (s : EngineState) : EngineState :=
  let s : EngineState :=
    match s.dealerSeat with
    | some _ => s
    | none =>
      match pids.head? with
      | none => s
      | some firstId =>
        let s : EngineState :=
          { s with dealerSeat := (findPlayer s firstId).bind (fun p => p.seatIndex) }
        updPlayer s firstId (fun p => { p with isDealer := true })
  let s : EngineState := { s with players := s.players.map (fun p =>
    if pids.contains p.id then { p with isDealer := p.seatIndex == s.dealerSeat } else p) }
  let sbSeat : Option Nat :=
    if pids.length = 2 then s.dealerSeat
    else s.dealerSeat.bind (fun d => getNextOccupiedSeat s d)
  let bbSeat : Option Nat := sbSeat.bind (fun sb => getNextOccupiedSeat s sb)
  let s : EngineState := { s with smallBlindSeat := sbSeat }
  let s : EngineState :=
    match sbSeat.bind (fun sb => getPlayerBySeat s sb) with
    | none => s
    | some sbPlayer =>
      let s : EngineState := updPlayer s sbPlayer.id (fun p => { p with isSmallBlind := true })
      let s : EngineState := commitAmount s sbPlayer.id SMALL_BLIND
      let s : EngineState := updPlayer s sbPlayer.id (fun p => { p with betThisRound := SMALL_BLIND })
      match findPlayer s sbPlayer.id with
      | some p2 => { s with currentBet := max s.currentBet p2.betThisRound }
      | none => s
  match bbSeat.bind (fun bb => getPlayerBySeat s bb) with
  | none => s
  | some bbPlayer =>
    let s : EngineState := updPlayer s bbPlayer.id (fun p => { p with isBigBlind := true })
    let s : EngineState := commitAmount s bbPlayer.id BIG_BLIND
    let s : EngineState := updPlayer s bbPlayer.id (fun p => { p with betThisRound := BIG_BLIND })
    match findPlayer s bbPlayer.id with
    | some p2 => { s with currentBet := max s.currentBet p2.betThisRound }
    | none => s

/-- Engine `beginHand`, taking the shuffle index stream. -/
def beginHand (pids : List String) (js : List Nat) (s : EngineState) : EStep :=
  let s : EngineState := { s with handNumber := s.handNumber + 1 }
  let s : EngineState := resetPlayersForHand pids s
  let s : EngineState := { s with deck := buildDeck js }
  let r := drawCardsFrom 5 s.deck
  let s : EngineState :=
    { s with deck := r.2, bossCards := r.1, bossRevealedCount := 3, bossVisible := false,
             phase := .rush, pot := 0, sidePot := 0, currentBet := 0,
             minimumRaise := RAISE_INCREMENT, message := "The Rush" }
  let s : EngineState := dealHands pids s
  let s : EngineState := { s with bossVisible := true }
  let s : EngineState := assignBlinds pids s
  runCascade FUEL (.startRound s.smallBlindSeat) s

/-- Engine `startHand`, taking the shuffle index stream. -/
def startHand (s : EngineState) (pid : String) (js : List Nat) : EStep :=
  match findPlayer s pid with
  | none => (s, [.errorEv (some pid) "Only dealer can start"])
  | some player =>
    if !player.isDealer then (s, [.errorEv (some pid) "Only dealer can start"])
    else if isHandActive s then (s, [.errorEv (some pid) "Hand already running"])
    else
      let seated := getEligibleSeatedPlayers s
      if seated.length < 2 then (s, [.errorEv (some pid) "Need at least two players"])
      else seqE (beginHand (seated.map (fun p => p.id)) js s) broadcast

/-- The bet/raise intents (engine `BetActionMessage`); the optional raise
amount is read by the raise branch. -/
inductive BetKind
  | fold | check | call | raise
deriving DecidableEq

structure BetActionMessage where
  action : BetKind
  amount : Option Int
deriving DecidableEq

/-- The action switch inside engine `betAction`: either a rejection (error
events, no state change) or the mutated state together with the
`resetActed` flag. -/
def betActionCore (s : EngineState) (player : EnginePlayer) (msg : BetActionMessage) :
    Except (List EngineEvent) (EngineState × Bool) :=
  match msg.action with
  | .fold =>
    .ok (updPlayer s player.id (fun p =>
      { p with hasFolded := true, inHand := false, lastAction := some "Fold" }), false)
  | .check =>
    if s.currentBet > player.betThisRound then
      .error [.errorEv (some player.id) "Cannot check"]
    else
      .ok (updPlayer s player.id (fun p => { p with lastAction := some "Check" }), false)
  | .call =>
    let s := callContribution s player.id
    .ok (updPlayer s player.id (fun p => { p with lastAction := some "Call" }), false)
  | .raise =>
    if player.stack ≤ 0 then .error [.errorEv (some player.id) "No chips"]
    else
      let desiredRaise := msg.amount.getD RAISE_INCREMENT
      if desiredRaise < RAISE_INCREMENT ∨ desiredRaise % RAISE_INCREMENT ≠ 0 then
        .error [.errorEv (some player.id) "Invalid raise amount"]
      else
        let callNeeded := max 0 (s.currentBet - player.betThisRound)
        if player.stack ≤ callNeeded then
          .error [.errorEv (some player.id) "Not enough chips to raise"]
        else
          let availableRaise :=
            min desiredRaise
              (Int.fdiv (player.stack - callNeeded) RAISE_INCREMENT * RAISE_INCREMENT)
          if availableRaise < RAISE_INCREMENT then
            .error [.errorEv (some player.id) "Raise below minimum"]
          else
            let needed := callNeeded + availableRaise
            let s : EngineState := commitAmount s player.id needed
            let s : EngineState :=
              match findPlayer s player.id with
              | some p2 => { s with currentBet := p2.betThisRound }
              | none => s
            let s : EngineState := { s with minimumRaise := max RAISE_INCREMENT availableRaise }
            .ok (updPlayer s player.id (fun p => { p with lastAction := some "Raise" }), true)

/-- Engine `betAction`. -/
def betAction (s : EngineState) (pid : String) (msg : BetActionMessage) : EStep :=
  match findPlayer s pid with
  | none => (s, [.errorEv (some pid) "Invalid action"])
  | some player =>
    if !player.inHand || player.hasFolded then (s, [.errorEv (some pid) "Invalid action"])
    else if s.actingSeat = none ∨ player.seatIndex ≠ s.actingSeat then
      (s, [.errorEv (some pid) "Not your turn"])
    else if player.seatIndex = none then (s, [.errorEv (some pid) "Invalid seat"])
    else
      match betActionCore s player msg with
      | .error es => (s, es)
      | .ok (s2, resetActed) =>
        let s3 := markSeatActed player.seatIndex resetActed s2
        seqE (runCascade FUEL .advance s3) broadcast

/-- Engine `comboUpdate`: not gated on phase, turn, seat or fold status;
requires only that the player exists and holds cards. -/
def comboUpdate (s : EngineState) (pid : String) (selections : List ComboSelection) : EStep :=
  match findPlayer s pid with
  | none => (s, [])
  | some player =>
    if player.hand.isEmpty then (s, [])
    else
      let sels := sanitizeSelections player selections
      updatePrivate pid (updPlayer s pid (fun p => { p with comboSelection := sels }))

/-- The acceptance updates of engine `comboSubmit`: lock and reveal the
sanitized selection and remove the player from the waiting set. -/
def lockCombo (s : EngineState) (pid : String) (player : EnginePlayer)
    (sels : List ComboSelection) : EngineState :=
  let s : EngineState := updPlayer s pid (fun p =>
    { p with comboSelection := sels
             comboRevealed := some (sels.filterMap
               (fun selection => findCardInHand player selection.cardId)) })
  { s with awaitingCombo := s.awaitingCombo.erase pid }

/-- Engine `comboSubmit`. -/
def comboSubmit (s : EngineState) (pid : String) (selections : List ComboSelection) : EStep :=
  match findPlayer s pid with
  | none => (s, [])
  | some player =>
    if !player.inHand || player.hasFolded then (s, [])
    else if s.phase ≠ .combo then (s, [.errorEv (some pid) "Not combo phase"])
    else if !s.awaitingCombo.contains pid then (s, [])
    else if player.seatIndex = none ∨ player.seatIndex ≠ s.actingSeat then
      (s, [.errorEv (some pid) "Not your turn"])
    else
      let sels := sanitizeSelections player selections
      let total := computeComboTotal player sels
      let bossTotal := computeBossTotal s
      if total > bossTotal then
        (s, [.errorEv (some pid) "Combo exceeds Boss total"])
      else
        let s : EngineState := lockCombo s pid player sels
        if s.awaitingCombo.isEmpty then
          runCascade FUEL .evalCombos (updateActionMessage { s with actingSeat := none })
        else
          match setNextComboActor s (s.comboIndex + 1) with
          | (s, false) => runCascade FUEL .evalCombos s
          | (s, true) => broadcast s

/-- The player intents exercised by the reachability traces. -/
inductive Intent
  | join (pid username : String)
  | seatTake (pid : String) (seatIndex : Nat)
  | startHand (pid : String) (js : List Nat)
  | betAction (pid : String) (msg : BetActionMessage)
  | comboUpdate (pid : String) (selections : List ComboSelection)
  | comboSubmit (pid : String) (selections : List ComboSelection)

def applyIntent (s : EngineState) : Intent → EStep
  | .join pid username => join s pid username
  | .seatTake pid seatIndex => seatTake s pid seatIndex
  | .startHand pid js => startHand s pid js
  | .betAction pid msg => betAction s pid msg
  | .comboUpdate pid sels => comboUpdate s pid sels
  | .comboSubmit pid sels => comboSubmit s pid sels

/-- Run a list of intents from the initial engine state, discarding events. -/
def runScript (script : List Intent) : EngineState :=
  script.foldl (fun s i => (applyIntent s i).1) initialState

/-! ## Specification-side definitions

These follow the wording of the specification (used on the right-hand side
of refinement statements), not the code. -/

/-- Specification-side card valuation: Ace is 1 when low and 11 when high,
J/Q/K are 11/12/13, numeric ranks count face value. -/
def specCardValue (r : Rank) (m : ComboMode) : Int :=
  match r with
  | .A => if m = .high then 11 else 1
  | .r2 => 2 | .r3 => 3 | .r4 => 4 | .r5 => 5 | .r6 => 6 | .r7 => 7
  | .r8 => 8 | .r9 => 9 | .r10 => 10 | .J => 11 | .Q => 12 | .K => 13

/-- Number of cards of a given suit in a list. -/
def suitCount (su : Suit) (cards : List Card) : Nat :=
  (cards.filter (fun c => c.suit = su)).length

/-- Specification-side suit matching: a one-to-one matching between player
cards and boss cards of equal suit credits, per suit, the smaller of the
two counts. -/
def specSuitMatches (cards boss : List Card) : Nat :=
  (allSuits.map (fun su => min (suitCount su cards) (suitCount su boss))).sum

/-! ## Helper lemmas -/

theorem suitCountsOf_go (l : List Card) (m : Suit → Nat) (su : Suit) :
    (l.foldl (fun m card => fun su => if su = card.suit then m su + 1 else m su) m) su
      = m su + suitCount su l := by
  induction l generalizing m with
  | nil => simp [suitCount]
  | cons c rest ih =>
    simp only [List.foldl_cons]
    rw [ih]
    by_cases h : su = c.suit
    · subst h
      simp [suitCount, List.filter_cons]
      omega
    · have h2 : ¬(c.suit = su) := fun hc => h hc.symm
      simp [suitCount, List.filter_cons, h, h2]

theorem suitCountsOf_eq (l : List Card) (su : Suit) :
    suitCountsOf l su = suitCount su l := by
  have := suitCountsOf_go l (fun _ => 0) su
  simpa [suitCountsOf] using this

theorem greedyMatch_eq (cards : List Card) :
    ∀ m : Suit → Nat, greedyMatch cards m
      = (allSuits.map (fun su => min (suitCount su cards) (m su))).sum := by
  induction cards with
  | nil =>
    intro m
    simp [greedyMatch, suitCount, allSuits]
  | cons c rest ih =>
    intro m
    simp only [greedyMatch]
    by_cases h : m c.suit > 0
    · rw [if_pos h, ih]
      cases hc : c.suit <;> rw [hc] at h <;>
        simp [allSuits, suitCount, List.filter_cons, hc] <;>
        omega
    · rw [if_neg h, ih]
      cases hc : c.suit <;> rw [hc] at h <;>
        simp [allSuits, suitCount, List.filter_cons, hc] <;>
        omega

theorem comboValue_eq_spec (c : Card) (m : ComboMode) :
    (if c.rank = .A then (if m = .high then (11 : Int) else 1) else getCardValue c.rank)
      = specCardValue c.rank m := by
  cases c.rank <;> cases m <;> rfl

theorem bossValue_eq_spec (r : Rank) : getBossCardValue r = specCardValue r .low := by
  cases r <;> rfl

theorem foldl_add_eq_sum {α : Type} (f : α → Int) (l : List α) :
    ∀ a : Int, l.foldl (fun acc x => acc + f x) a = a + (l.map f).sum := by
  induction l with
  | nil => intro a; simp
  | cons x rest ih =>
    intro a
    simp only [List.foldl_cons, List.map_cons, List.sum_cons, ih]
    ring

theorem totalPot_eq_sum (s : EngineState) :
    totalPot s = (s.players.map (fun p => p.totalBet)).sum := by
  have := foldl_add_eq_sum (fun p : EnginePlayer => p.totalBet) s.players 0
  simpa [totalPot] using this

theorem computeComboTotal_go (player : EnginePlayer) (sels : List ComboSelection) :
    ∀ a : Int,
      sels.foldl
        (fun total selection =>
          match findCardInHand player selection.cardId with
          | none => total
          | some card =>
            if card.rank = .A then total + (if selection.mode = .high then 11 else 1)
            else total + getCardValue card.rank)
        a
      = a + (sels.filterMap (fun sel => (findCardInHand player sel.cardId).map
          (fun c => specCardValue c.rank sel.mode))).sum := by
  induction sels with
  | nil => intro a; simp
  | cons sel rest ih =>
    intro a
    simp only [List.foldl_cons, List.filterMap_cons]
    cases h : findCardInHand player sel.cardId with
    | none => simp [h, ih]
    | some c =>
      simp only [h, Option.map_some', List.sum_cons, ih]
      rw [← comboValue_eq_spec c sel.mode]
      split_ifs <;> ring

theorem computeComboTotal_eq_sum (player : EnginePlayer) (sels : List ComboSelection) :
    computeComboTotal player sels
      = (sels.filterMap (fun sel => (findCardInHand player sel.cardId).map
          (fun c => specCardValue c.rank sel.mode))).sum := by
  have := computeComboTotal_go player sels 0
  simpa [computeComboTotal] using this

theorem computeBossTotal_eq_sum (s : EngineState) :
    computeBossTotal s = ((revealedBoss s).map (fun c => specCardValue c.rank .low)).sum := by
  have := foldl_add_eq_sum (fun c : Card => getBossCardValue c.rank) (revealedBoss s) 0
  simp only [computeBossTotal, this, zero_add]
  simp [bossValue_eq_spec]

theorem min_add_overflow (t cap : Int) :
    min t cap + max 0 (t - cap) = t := by
  rcases le_or_lt t cap with h | h
  · rw [min_eq_left h, max_eq_left (by omega)]; ring
  · rw [min_eq_right h.le, max_eq_right (by omega)]; ring

theorem overflow_ite_eq_max (t cap : Int) :
    (if t > cap then t - cap else 0) = max 0 (t - cap) := by
  split_ifs with h
  · rw [max_eq_right (by omega)]
  · rw [max_eq_left (by omega)]

theorem sum_min_add_overflow (l : List EnginePlayer) (cap : Int) :
    (l.map (fun p => min p.totalBet cap)).sum
      + (l.map (fun p => max 0 (p.totalBet - cap))).sum
      = (l.map (fun p => p.totalBet)).sum := by
  induction l with
  | nil => simp
  | cons p rest ih =>
    simp only [List.map_cons, List.sum_cons]
    have := min_add_overflow p.totalBet cap
    linarith

theorem sidePotFold (l : List EnginePlayer) (cap : Int) :
    ∀ a b : Int,
      (l.foldl
        (fun (acc : Int × Int) p =>
          (acc.1 + min p.totalBet cap,
           acc.2 + (if p.totalBet > cap then p.totalBet - cap else 0)))
        (a, b))
      = (a + (l.map (fun p => min p.totalBet cap)).sum,
         b + (l.map (fun p => max 0 (p.totalBet - cap))).sum) := by
  induction l with
  | nil => intro a b; simp
  | cons p rest ih =>
    intro a b
    simp only [List.foldl_cons, List.map_cons, List.sum_cons]
    rw [overflow_ite_eq_max, ih]
    simp only [Prod.mk.injEq]
    constructor <;> ring

/-- The cap used by `updateSidePotValues` once the all-in list is known to
be `q :: rest`. -/
def capOf (q : EnginePlayer) (rest : List EnginePlayer) : Int :=
  rest.foldl (fun acc p => min acc p.totalBet) q.totalBet

theorem foldl_min_le_init (l : List EnginePlayer) :
    ∀ a : Int, l.foldl (fun acc p => min acc p.totalBet) a ≤ a := by
  induction l with
  | nil => intro a; simp
  | cons p rest ih =>
    intro a
    simp only [List.foldl_cons]
    exact le_trans (ih _) (min_le_left _ _)

theorem foldl_min_le_mem (l : List EnginePlayer) :
    ∀ a : Int, ∀ p ∈ l, l.foldl (fun acc q => min acc q.totalBet) a ≤ p.totalBet := by
  induction l with
  | nil => intro a p hp; simp at hp
  | cons q rest ih =>
    intro a p hp
    rcases List.mem_cons.mp hp with h | h
    · subst h
      simp only [List.foldl_cons]
      exact le_trans (foldl_min_le_init rest _) (min_le_right _ _)
    · exact ih _ p h

theorem capOf_le (q : EnginePlayer) (rest : List EnginePlayer) :
    ∀ p ∈ q :: rest, capOf q rest ≤ p.totalBet := by
  intro p hp
  rcases List.mem_cons.mp hp with h | h
  · subst h; exact foldl_min_le_init rest _
  · exact foldl_min_le_mem rest _ p h

theorem updateSidePotValues_players (t : EngineState) :
    (updateSidePotValues t).players = t.players := by
  unfold updateSidePotValues
  cases (activePlayers t).filter (fun p => p.stack = 0) <;> rfl

theorem updateSidePotValues_spec (t : EngineState) :
    (updateSidePotValues t).pot + (updateSidePotValues t).sidePot
        = (t.players.map (fun p => p.totalBet)).sum
    ∧ ((activePlayers t).filter (fun p => p.stack = 0) = [] →
        (updateSidePotValues t).sidePot = 0
        ∧ (updateSidePotValues t).pot = (t.players.map (fun p => p.totalBet)).sum)
    ∧ (∀ q rest, (activePlayers t).filter (fun p => p.stack = 0) = q :: rest →
        (updateSidePotValues t).pot
            = (t.players.map (fun p => min p.totalBet (capOf q rest))).sum
        ∧ (updateSidePotValues t).sidePot
            = (t.players.map (fun p => max 0 (p.totalBet - (capOf q rest)))).sum) := by
  unfold updateSidePotValues
  cases hall : (activePlayers t).filter (fun p => p.stack = 0) with
  | nil =>
    refine ⟨by simp [totalPot_eq_sum], fun _ => ⟨rfl, by simp [totalPot_eq_sum]⟩, ?_⟩
    intro q rest hqr
    simp at hqr
  | cons q rest =>
    have hfold := sidePotFold t.players (capOf q rest) 0 0
    simp only [capOf] at hfold
    have hsum := sum_min_add_overflow t.players (capOf q rest)
    simp only [capOf] at hsum
    refine ⟨?_, ?_, ?_⟩
    · dsimp only
      rw [hfold]
      dsimp only
      omega
    · intro h
      simp at h
    · intro q2 rest2 hqr
      injection hqr with h1 h2
      subst h1; subst h2
      dsimp only
      rw [hfold]
      simp only [capOf]
      constructor <;> simp

/-! ## Base fixtures for concrete witnesses -/

/-- A freshly joined player record (all per-hand fields cleared). -/
def basePlayer (pid : String) : EnginePlayer :=
  { id := pid
    username := pid
    seatIndex := none
    stack := STARTING_STACK
    entryHand := 0
    hand := []
    inHand := false
    hasFolded := false
    betThisRound := 0
    totalBet := 0
    comboSelection := []
    comboRevealed := none
    isDealer := false
    isSmallBlind := false
    isBigBlind := false
    lastAction := none }

/-! ## Claim C1 -/

theorem activePlayers_updateSidePot (t : EngineState) :
    activePlayers (updateSidePotValues t) = activePlayers t := by
  unfold activePlayers
  rw [updateSidePotValues_players]

theorem updateSidePot_full (t : EngineState) :
    (updateSidePotValues t).pot + (updateSidePotValues t).sidePot
        = ((updateSidePotValues t).players.map (fun p => p.totalBet)).sum
    ∧ ((activePlayers (updateSidePotValues t)).filter (fun p => p.stack = 0) = [] →
        (updateSidePotValues t).sidePot = 0
        ∧ (updateSidePotValues t).pot
            = ((updateSidePotValues t).players.map (fun p => p.totalBet)).sum)
    ∧ (∀ q rest,
        (activePlayers (updateSidePotValues t)).filter (fun p => p.stack = 0) = q :: rest →
        (∀ p ∈ q :: rest, capOf q rest ≤ p.totalBet)
        ∧ (updateSidePotValues t).pot
            = ((updateSidePotValues t).players.map
                (fun p => min p.totalBet (capOf q rest))).sum
        ∧ (updateSidePotValues t).sidePot
            = ((updateSidePotValues t).players.map
                (fun p => max 0 (p.totalBet - capOf q rest))).sum) := by
  obtain ⟨h1, h2, h3⟩ := updateSidePotValues_spec t
  rw [activePlayers_updateSidePot, updateSidePotValues_players]
  exact ⟨h1, h2, fun q rest hqr => ⟨capOf_le q rest, (h3 q rest hqr).1, (h3 q rest hqr).2⟩⟩

/-- Claim C1: after every chip commitment (engine `commitAmount`, through
which every blind posting, call and raise flows), pot plus side pot equals
the sum over all players of `totalBet`; when no active player has a zero
stack the side pot is 0 and the pot is the full sum, and when some active
player has a zero stack the pot is the sum of `min(totalBet, cap)` and the
side pot the sum of `max(0, totalBet - cap)`, where `cap` is the least
`totalBet` among zero-stack active players. -/
theorem C1_pot_sidePot_accounting (s : EngineState) (pid : String) (amt : Int) :
    (commitAmount s pid amt).pot + (commitAmount s pid amt).sidePot
        = ((commitAmount s pid amt).players.map (fun p => p.totalBet)).sum
    ∧ ((activePlayers (commitAmount s pid amt)).filter (fun p => p.stack = 0) = [] →
        (commitAmount s pid amt).sidePot = 0
        ∧ (commitAmount s pid amt).pot
            = ((commitAmount s pid amt).players.map (fun p => p.totalBet)).sum)
    ∧ (∀ q rest,
        (activePlayers (commitAmount s pid amt)).filter (fun p => p.stack = 0) = q :: rest →
        (∀ p ∈ q :: rest, capOf q rest ≤ p.totalBet)
        ∧ (commitAmount s pid amt).pot
            = ((commitAmount s pid amt).players.map
                (fun p => min p.totalBet (capOf q rest))).sum
        ∧ (commitAmount s pid amt).sidePot
            = ((commitAmount s pid amt).players.map
                (fun p => max 0 (p.totalBet - capOf q rest))).sum) := by
  unfold commitAmount
  exact updateSidePot_full _

/-- A two-player state where committing 3 more chips sends player B all-in. -/
def c1State : EngineState :=
  { initialState with players :=
      [{ basePlayer "A" with inHand := true, stack := 20, totalBet := 60 },
       { basePlayer "B" with inHand := true, stack := 3, totalBet := 50 }] }

def c1AllIn : EnginePlayer :=
  { basePlayer "B" with inHand := true, stack := 0, betThisRound := 3, totalBet := 53 }

theorem C1_witness :
    (commitAmount c1State "B" 3).pot = 106 ∧ (commitAmount c1State "B" 3).sidePot = 7 := by
  have h := (C1_pot_sidePot_accounting c1State "B" 3).2.2 c1AllIn [] (by decide)
  refine ⟨?_, ?_⟩
  · rw [h.2.1]; decide
  · rw [h.2.2]; decide

/-! ## Claim C7 -/

/-- The court-card fixture of the repository's own simulation test: a hand
holding J, Q, K. -/
def courtPlayer : EnginePlayer :=
  { basePlayer "p1" with hand :=
      [{ id := "c-j", rank := .J, suit := .clubs },
       { id := "d-q", rank := .Q, suit := .diamonds },
       { id := "h-k", rank := .K, suit := .hearts }] }

def courtSelections : List ComboSelection :=
  [{ cardId := "c-j", mode := .low },
   { cardId := "d-q", mode := .low },
   { cardId := "h-k", mode := .low }]

/-- Claim C7: the combo total values each selected card by `specCardValue`
(Ace is 1 low and 11 high, J/Q/K are 11/12/13, numeric ranks face value),
the boss total values the revealed prefix by the same scheme with the Ace
always low, and J+Q+K all low total 36. -/
theorem C7_card_valuation (player : EnginePlayer) (sels : List ComboSelection)
    (s : EngineState) :
    computeComboTotal player sels
      = (sels.filterMap (fun sel => (findCardInHand player sel.cardId).map
          (fun c => specCardValue c.rank sel.mode))).sum
    ∧ computeBossTotal s
      = ((revealedBoss s).map (fun c => specCardValue c.rank .low)).sum
    ∧ computeComboTotal courtPlayer courtSelections = 36 :=
  ⟨computeComboTotal_eq_sum player sels, computeBossTotal_eq_sum s, by decide⟩

/-! ## Claim C9 -/

/-- Claim C9: the engine's suit-match count is exactly the per-suit capped
matching of the specification: for each suit the smaller of the player
count and the revealed boss count, so a boss card is never credited twice. -/
theorem C9_suit_matching (s : EngineState) (cards : List Card) :
    countSuitMatches s cards = specSuitMatches cards (revealedBoss s) := by
  unfold countSuitMatches specSuitMatches
  rw [greedyMatch_eq]
  simp [suitCountsOf_eq]

/-! ## Claim C2 -/

theorem mem_activePlayers (s : EngineState) (p : EnginePlayer) :
    p ∈ activePlayers s ↔ p ∈ s.players ∧ p.inHand = true ∧ p.hasFolded = false := by
  simp [activePlayers, List.mem_filter]

theorem haveAllActed_iff (s : EngineState) :
    haveAllRequiredPlayersActed s = true ↔
      ∀ p ∈ activePlayers s, ∀ k, p.seatIndex = some k → p.stack ≠ 0 →
        k ∈ s.actedThisRound := by
  unfold haveAllRequiredPlayersActed
  rw [List.all_eq_true]
  constructor
  · intro h p hp k hk hst
    obtain ⟨hmem, hin, hf⟩ := (mem_activePlayers s p).mp hp
    have hb := h p hmem
    rw [hin, hf, hk] at hb
    simp only [Bool.not_true, Bool.false_or, if_false] at hb
    rw [if_neg hst] at hb
    exact List.elem_iff.mp hb
  · intro h p hp
    cases hin : p.inHand with
    | false => simp [hin]
    | true =>
      cases hf : p.hasFolded with
      | true => simp [hf]
      | false =>
        cases hk : p.seatIndex with
        | none => simp [hin, hf, hk]
        | some k =>
          by_cases hst : p.stack = 0
          · simp [hin, hf, hk, hst]
          · have hmem := h p ((mem_activePlayers s p).mpr ⟨hp, hin, hf⟩) k hk hst
            simp only [hin, hf, hk, Bool.not_true, Bool.false_or, if_false, if_neg hst]
            exact List.elem_iff.mpr hmem

/-- Claim C2: a betting round is complete exactly when at most one active
player remains, or every active non-zero-stack player has acted since the
last raise and has `betThisRound` equal to the current bet (zero-stack
all-in players exempt from the equality); and `finishBettingRound` first
resets every `betThisRound` to 0, the current bet to 0 and the minimum
raise to the fixed increment, and only then dispatches the phase advance. -/
theorem C2_round_completion (s : EngineState) :
    (isBettingRoundComplete s = true ↔
      ((activePlayers s).length ≤ 1 ∨
        ∀ p ∈ activePlayers s, p.stack ≠ 0 →
          (∀ k, p.seatIndex = some k → k ∈ s.actedThisRound)
          ∧ p.betThisRound = s.currentBet))
    ∧ (∀ n, runCascade (n + 1) .finishRound s = runCascade n .finishDispatch (roundReset s))
    ∧ (∀ q ∈ (roundReset s).players, q.betThisRound = 0)
    ∧ (roundReset s).currentBet = 0
    ∧ (roundReset s).minimumRaise = RAISE_INCREMENT := by
  refine ⟨?_, fun n => rfl, ?_, rfl, rfl⟩
  · unfold isBettingRoundComplete
    by_cases hlen : (activePlayers s).length ≤ 1
    · rw [if_pos hlen]
      exact ⟨fun _ => Or.inl hlen, fun _ => rfl⟩
    · rw [if_neg hlen]
      by_cases hA : haveAllRequiredPlayersActed s = true
      · rw [hA]
        simp only [Bool.not_true, Bool.false_eq_true, if_false, List.all_eq_true]
        constructor
        · intro h
          refine Or.inr fun p hp hst => ?_
          refine ⟨fun k hk => (haveAllActed_iff s).mp hA p hp k hk hst, ?_⟩
          have hb := h p hp
          rcases Bool.or_eq_true_iff.mp hb with hb | hb
          · exact beq_iff_eq.mp hb
          · exact absurd (beq_iff_eq.mp hb) hst
        · rintro (h | h)
          · exact absurd h hlen
          · intro p hp
            by_cases hst : p.stack = 0
            · exact Bool.or_eq_true_iff.mpr (Or.inr (beq_iff_eq.mpr hst))
            · exact Bool.or_eq_true_iff.mpr (Or.inl (beq_iff_eq.mpr ((h p hp hst).2)))
      · have hA' : haveAllRequiredPlayersActed s = false := by simpa using hA
        rw [hA']
        simp only [Bool.not_false, if_true]
        constructor
        · intro hfalse
          exact absurd hfalse (by simp)
        · rintro (h | h)
          · exact absurd h hlen
          · exfalso
            apply hA
            rw [haveAllActed_iff]
            intro p hp k hk hst
            exact (h p hp hst).1 k hk
  · intro q hq
    simp only [roundReset, List.mem_map] at hq
    obtain ⟨p, _, hpq⟩ := hq
    rw [← hpq]

/-- A concrete two-player state in which the round is complete: both have
acted and match the current bet. -/
def c2State : EngineState :=
  { initialState with
      players :=
        [{ basePlayer "A" with
             inHand := true
             seatIndex := some 1
             stack := 490
             betThisRound := 10
             totalBet := 10 },
         { basePlayer "B" with
             inHand := true
             seatIndex := some 2
             stack := 490
             betThisRound := 10
             totalBet := 10 }]
      currentBet := 10
      actedThisRound := [1, 2]
      phase := .rush }

theorem C2_witness : isBettingRoundComplete c2State = true :=
  (C2_round_completion c2State).1.mpr (Or.inr (by decide))

/-! ## Claim C10 -/

theorem find?_map_upd (l : List EnginePlayer) (pid : String)
    (f : EnginePlayer → EnginePlayer) (hid : ∀ p, (f p).id = p.id) :
    (l.map (fun p => if p.id = pid then f p else p)).find? (fun p => p.id = pid)
      = (l.find? (fun p => p.id = pid)).map f := by
  induction l with
  | nil => rfl
  | cons q rest ih =>
    by_cases h : q.id = pid
    · rw [List.map_cons, if_pos h]
      rw [List.find?_cons_of_pos _ (by simpa [hid] using h),
          List.find?_cons_of_pos _ (by simpa using h)]
      rfl
    · rw [List.map_cons, if_neg h]
      rw [List.find?_cons_of_neg _ (by simpa using h),
          List.find?_cons_of_neg _ (by simpa using h)]
      exact ih

theorem findPlayer_updPlayer (s : EngineState) (pid : String)
    (f : EnginePlayer → EnginePlayer) (hid : ∀ p, (f p).id = p.id) :
    findPlayer (updPlayer s pid f) pid = (findPlayer s pid).map f :=
  find?_map_upd s.players pid f hid

theorem findCardInHand_id (player : EnginePlayer) (cardId : String) (c : Card)
    (h : findCardInHand player cardId = some c) : c.id = cardId := by
  have := List.find?_some h
  simpa using this

theorem sanitizeGo_props (player : EnginePlayer) (sels : List ComboSelection) :
    ∀ seen : List String,
      (∀ x ∈ sanitizeGo player sels seen,
        x.cardId ∉ seen
        ∧ ∃ c, findCardInHand player x.cardId = some c ∧ (x.mode = .high → c.rank = .A))
      ∧ ((sanitizeGo player sels seen).map (fun x => x.cardId)).Nodup := by
  induction sels with
  | nil =>
    intro seen
    exact ⟨fun x hx => by simp [sanitizeGo] at hx, by simp [sanitizeGo]⟩
  | cons sel rest ih =>
    intro seen
    unfold sanitizeGo
    by_cases hseen : sel.cardId ∈ seen
    · rw [if_pos hseen]
      exact ih seen
    · rw [if_neg hseen]
      cases hf : findCardInHand player sel.cardId with
      | none => exact ih seen
      | some card =>
        have hcid : card.id = sel.cardId := findCardInHand_id player sel.cardId card hf
        obtain ⟨ihmem, ihnodup⟩ := ih (card.id :: seen)
        constructor
        · intro x hx
          rcases List.mem_cons.mp hx with hx | hx
          · subst hx
            refine ⟨by rw [hcid]; exact hseen, card, by rw [hcid]; exact hf, ?_⟩
            intro hm
            by_cases hA : card.rank = .A ∧ sel.mode = .high
            · exact hA.1
            · simp only [if_neg hA] at hm
              exact absurd hm (by simp)
          · obtain ⟨hnotin, hex⟩ := ihmem x hx
            exact ⟨fun hin => hnotin (List.mem_cons_of_mem _ hin), hex⟩
        · rw [List.map_cons]
          refine List.nodup_cons.mpr ⟨?_, ihnodup⟩
          intro hin
          obtain ⟨x, hx, hxid⟩ := List.mem_map.mp hin
          exact (ihmem x hx).1 (hxid ▸ List.mem_cons_self _ _)

theorem sanitizeSelections_props (player : EnginePlayer) (sels : List ComboSelection) :
    ((sanitizeSelections player sels).map (fun x => x.cardId)).Nodup
    ∧ ∀ x ∈ sanitizeSelections player sels,
        ∃ c, findCardInHand player x.cardId = some c ∧ (x.mode = .high → c.rank = .A) := by
  obtain ⟨hmem, hnodup⟩ := sanitizeGo_props player sels []
  exact ⟨hnodup, fun x hx => (hmem x hx).2⟩

/-- Claim C10: `comboUpdate` is gated only on the player existing and
holding cards — not on phase, turn, seating or fold status.  It replaces
the provisional selection with the sanitized one (ids de-duplicated,
references outside the hand dropped, mode forced low except an Ace
explicitly marked high), changes nothing else, and never emits an error. -/
theorem C10_comboUpdate_ungated (s : EngineState) (pid : String)
    (sels : List ComboSelection) (player : EnginePlayer)
    (hp : findPlayer s pid = some player) (hh : player.hand ≠ []) :
    comboUpdate s pid sels
      = (updPlayer s pid (fun p =>
          { p with comboSelection := sanitizeSelections player sels }), [.privateEv pid])
    ∧ (∀ e ∈ (comboUpdate s pid sels).2, isErrorEvent e = false)
    ∧ (comboUpdate s pid sels).1.phase = s.phase
    ∧ (comboUpdate s pid sels).1.actingSeat = s.actingSeat
    ∧ (comboUpdate s pid sels).1.awaitingCombo = s.awaitingCombo
    ∧ (comboUpdate s pid sels).1.seats = s.seats
    ∧ (findPlayer (comboUpdate s pid sels).1 pid).map (fun p => p.comboSelection)
        = some (sanitizeSelections player sels)
    ∧ ((sanitizeSelections player sels).map (fun x => x.cardId)).Nodup
    ∧ (∀ x ∈ sanitizeSelections player sels,
        ∃ c, findCardInHand player x.cardId = some c ∧ (x.mode = .high → c.rank = .A)) := by
  have hne : player.hand.isEmpty = false := by
    cases hhand : player.hand with
    | nil => exact absurd hhand hh
    | cons a l => rfl
  have heq : comboUpdate s pid sels
      = (updPlayer s pid (fun p =>
          { p with comboSelection := sanitizeSelections player sels }), [.privateEv pid]) := by
    unfold comboUpdate
    rw [hp]
    simp only [hne, Bool.false_eq_true, if_false]
    unfold updatePrivate
    rw [findPlayer_updPlayer s pid
      (fun p => { p with comboSelection := sanitizeSelections player sels })
      (fun p => rfl), hp]
    rfl
  obtain ⟨hnodup, hmem⟩ := sanitizeSelections_props player sels
  refine ⟨heq, ?_, by rw [heq]; rfl, by rw [heq]; rfl, by rw [heq]; rfl,
    by rw [heq]; rfl, ?_, hnodup, hmem⟩
  · intro e he
    rw [heq] at he
    simp only [List.mem_singleton] at he
    rw [he]
    rfl
  · rw [heq]
    simp only
    rw [findPlayer_updPlayer s pid
      (fun p => { p with comboSelection := sanitizeSelections player sels })
      (fun p => rfl), hp]
    rfl

/-- A folded player, outside the combo phase, on another player's turn,
still allowed to revise their provisional selection. -/
def c10State : EngineState :=
  { initialState with
      phase := .rush
      actingSeat := some 2
      players :=
        [{ basePlayer "A" with
             seatIndex := some 1
             inHand := true
             hasFolded := true
             hand := [{ id := "A-hearts-0", rank := .A, suit := .hearts }] }] }

def c10Player : EnginePlayer :=
  { basePlayer "A" with
      seatIndex := some 1
      inHand := true
      hasFolded := true
      hand := [{ id := "A-hearts-0", rank := .A, suit := .hearts }] }

def c10Sels : List ComboSelection :=
  [{ cardId := "A-hearts-0", mode := .high },
   { cardId := "A-hearts-0", mode := .low },
   { cardId := "missing", mode := .high }]

theorem C10_witness :
    (findPlayer (comboUpdate c10State "A" c10Sels).1 "A").map (fun p => p.comboSelection)
      = some [{ cardId := "A-hearts-0", mode := .high }]
    ∧ (comboUpdate c10State "A" c10Sels).1.phase = .rush := by
  have h := C10_comboUpdate_ungated c10State "A" c10Sels c10Player (by decide)
    (by decide)
  refine ⟨?_, ?_⟩
  · rw [h.2.2.2.2.2.2.1]
    decide
  · rw [h.2.2.1]
    decide

/-! ## Claim C3 -/

/-- Two players join, take seats 1 and 2, and the dealer starts a hand
with the unshuffled index stream.  Heads-up, the dealer (seat 1) posts the
small blind and acts first in the rush. -/
def raiseScript : List Intent :=
  [.join "A" "Alice", .join "B" "Bob", .seatTake "A" 1, .seatTake "B" 2,
   .startHand "A" []]

def raiseState : EngineState := runScript raiseScript

/-- Claim C3 counterexample: in a reachable rush-phase state the acting
player holds 495 chips against a call of 5 (covering far more than one
increment), the raise increment is 10, and a requested raise of 25 is
rejected with an error and no state change — not accepted floored to 20. -/
theorem C3_counterexample :
    raiseState.minimumRaise = RAISE_INCREMENT
    ∧ raiseState.actingSeat = some 1
    ∧ (findPlayer raiseState "A").map (fun p => p.seatIndex) = some (some 1)
    ∧ (findPlayer raiseState "A").map (fun p => p.stack) = some 495
    ∧ (findPlayer raiseState "A").map (fun p => p.betThisRound) = some 5
    ∧ raiseState.currentBet = 10
    ∧ betAction raiseState "A" { action := .raise, amount := some 25 }
        = (raiseState, [.errorEv (some "A") "Invalid raise amount"]) := by
  decide

theorem findPlayer_id (s : EngineState) (pid : String) (player : EnginePlayer)
    (hp : findPlayer s pid = some player) : player.id = pid := by
  have := List.find?_some hp
  simpa using this

theorem findPlayer_congr (s1 s2 : EngineState) (pid : String)
    (h : s1.players = s2.players) : findPlayer s1 pid = findPlayer s2 pid := by
  unfold findPlayer
  rw [h]

theorem findPlayer_commitAmount (s : EngineState) (pid : String) (amt : Int) :
    findPlayer (commitAmount s pid amt) pid
      = (findPlayer s pid).map (fun p =>
          { p with stack := p.stack - min p.stack amt
                   betThisRound := p.betThisRound + min p.stack amt
                   totalBet := p.totalBet + min p.stack amt }) := by
  unfold commitAmount
  rw [findPlayer_congr _ _ pid (updateSidePotValues_players _)]
  exact findPlayer_updPlayer s pid _ (fun p => rfl)

/-- Claim C3 (amended): a raise request of 25 — not a multiple of the fixed
increment 10 — is rejected with an error regardless of stack (see the
counterexample); a request that is at least one increment and a multiple of
10, from an acting player whose stack strictly exceeds the call amount and
whose largest affordable increment multiple is at least 10, is accepted
with effective raise `min(request, floor((stack - call)/10)*10)`. -/
theorem C3_raise_sizing (s : EngineState) (pid : String) (player : EnginePlayer)
    (amt : Int)
    (hp : findPlayer s pid = some player)
    (hstack : 0 < player.stack) :
    ((amt < RAISE_INCREMENT ∨ amt % RAISE_INCREMENT ≠ 0) →
      betActionCore s player { action := .raise, amount := some amt }
        = .error [.errorEv (some pid) "Invalid raise amount"])
    ∧ (∀ callNeeded availableRaise : Int,
        callNeeded = max 0 (s.currentBet - player.betThisRound) →
        availableRaise = min amt
          (Int.fdiv (player.stack - callNeeded) RAISE_INCREMENT * RAISE_INCREMENT) →
        RAISE_INCREMENT ≤ amt → amt % RAISE_INCREMENT = 0 →
        callNeeded < player.stack → RAISE_INCREMENT ≤ availableRaise →
        ∃ s2, betActionCore s player { action := .raise, amount := some amt }
            = .ok (s2, true)
          ∧ (findPlayer s2 pid).map (fun p => p.betThisRound)
              = some (player.betThisRound + callNeeded + availableRaise)
          ∧ (findPlayer s2 pid).map (fun p => p.stack)
              = some (player.stack - (callNeeded + availableRaise))
          ∧ s2.currentBet = player.betThisRound + callNeeded + availableRaise
          ∧ s2.minimumRaise = max RAISE_INCREMENT availableRaise) := by
  have hid : player.id = pid := findPlayer_id s pid player hp
  constructor
  · intro hbad
    unfold betActionCore
    rw [if_neg (not_le.mpr hstack)]
    simp only [Option.getD_some]
    rw [if_pos hbad, hid]
  · intro callNeeded availableRaise hc ha hge hmod hlt hav
    have hcond : ¬(amt < RAISE_INCREMENT ∨ amt % RAISE_INCREMENT ≠ 0) := by
      rintro (h1 | h2)
      · exact absurd hge (not_le.mpr h1)
      · exact h2 hmod
    have hq0 : (0 : Int) ≤ player.stack - callNeeded := by omega
    have hdivle : Int.fdiv (player.stack - callNeeded) RAISE_INCREMENT * RAISE_INCREMENT
        ≤ player.stack - callNeeded := by
      obtain ⟨n, hn⟩ := Int.eq_ofNat_of_zero_le hq0
      rw [hn]
      have h10 : (RAISE_INCREMENT : Int) = ((10 : Nat) : Int) := rfl
      rw [h10, ← Int.ofNat_fdiv]
      have := Nat.div_mul_le_self n 10
      exact_mod_cast this
    have hneed : callNeeded + availableRaise ≤ player.stack := by
      have := min_le_right amt
        (Int.fdiv (player.stack - callNeeded) RAISE_INCREMENT * RAISE_INCREMENT)
      rw [← ha] at this
      omega
    unfold betActionCore
    rw [if_neg (not_le.mpr hstack)]
    simp only [Option.getD_some]
    rw [if_neg hcond, ← hc, if_neg (not_le.mpr hlt), ← ha,
      if_neg (not_lt.mpr hav)]
    have hfc := findPlayer_commitAmount s pid (callNeeded + availableRaise)
    rw [hp] at hfc
    simp only [Option.map_some'] at hfc
    have hmin : min player.stack (callNeeded + availableRaise)
        = callNeeded + availableRaise := min_eq_right hneed
    rw [hmin] at hfc
    rw [hid]
    rw [hfc]
    have hX : findPlayer
        { commitAmount s pid (callNeeded + availableRaise) with
            currentBet := player.betThisRound + (callNeeded + availableRaise)
            minimumRaise := max RAISE_INCREMENT availableRaise } pid
        = findPlayer (commitAmount s pid (callNeeded + availableRaise)) pid :=
      findPlayer_congr _ (commitAmount s pid (callNeeded + availableRaise)) pid rfl
    refine ⟨_, rfl, ?_, ?_, ?_, rfl⟩
    · show Option.map (fun p => p.betThisRound)
          (findPlayer (updPlayer
            { commitAmount s pid (callNeeded + availableRaise) with
                currentBet := player.betThisRound + (callNeeded + availableRaise)
                minimumRaise := max RAISE_INCREMENT availableRaise } pid
            (fun p => { p with lastAction := some "Raise" })) pid)
        = some (player.betThisRound + callNeeded + availableRaise)
      rw [findPlayer_updPlayer _ pid
        (fun p => { p with lastAction := some "Raise" }) (fun p => rfl)]
      rw [hX, hfc]
      simp only [Option.map_some']
      show some (player.betThisRound + (callNeeded + availableRaise)) = _
      rw [← add_assoc]
    · show Option.map (fun p => p.stack)
          (findPlayer (updPlayer
            { commitAmount s pid (callNeeded + availableRaise) with
                currentBet := player.betThisRound + (callNeeded + availableRaise)
                minimumRaise := max RAISE_INCREMENT availableRaise } pid
            (fun p => { p with lastAction := some "Raise" })) pid)
        = some (player.stack - (callNeeded + availableRaise))
      rw [findPlayer_updPlayer _ pid
        (fun p => { p with lastAction := some "Raise" }) (fun p => rfl)]
      rw [hX, hfc]
      simp only [Option.map_some']
    · show player.betThisRound + (callNeeded + availableRaise) = _
      rw [← add_assoc]

/-- The player record actually seated at seat 1 of `raiseState`. -/
def raisePlayerA : EnginePlayer :=
  (findPlayer raiseState "A").getD (basePlayer "A")

theorem C3_witness :
    ∃ s2, betActionCore raiseState raisePlayerA { action := .raise, amount := some 20 }
        = .ok (s2, true)
      ∧ (findPlayer s2 "A").map (fun p => p.betThisRound) = some 30
      ∧ s2.currentBet = 30 := by
  obtain ⟨s2, h1, h2, h3, h4, h5⟩ :=
    (C3_raise_sizing raiseState "A" raisePlayerA 20 (by decide) (by decide)).2
      5 20 (by decide) (by decide) (by decide) (by decide) (by decide) (by decide)
  exact ⟨s2, h1, h2.trans (by decide), h4.trans (by decide)⟩

/-! ## Claim C4 -/

/-- While hand 1 runs, player C joins and takes seat 3 (`entryHand` becomes
2); then A folds, ending the hand by default award, and the rotated dealer
B starts the next hand. -/
def entryScript : List Intent :=
  raiseScript ++
  [.join "C" "Cara", .seatTake "C" 3,
   .betAction "A" { action := .fold, amount := none }]

def entryState : EngineState := runScript entryScript

def entryState2 : EngineState := runScript (entryScript ++ [.startHand "B" []])

/-- Claim C4 counterexample: C took a seat during hand 1 and got
`entryHand = 2`, yet when the dealer starts hand 2, C is not among the
eligible seated players (the check compares the pre-increment hand number
1 against 2) and is dealt no cards. -/
theorem C4_counterexample :
    (findPlayer entryState "C").map (fun p => p.entryHand) = some 2
    ∧ entryState.handNumber = 1
    ∧ entryState.phase = .waiting
    ∧ entryState.seats.getD 2 none = some "C"
    ∧ (getEligibleSeatedPlayers entryState).map (fun p => p.id) = ["A", "B"]
    ∧ entryState2.handNumber = 2
    ∧ (findPlayer entryState2 "C").map (fun p => p.inHand) = some false
    ∧ (findPlayer entryState2 "C").map (fun p => p.hand.length) = some 0 := by
  decide

/-- The accumulator step of `getEligibleSeatedPlayers`, named for the
eligibility lemmas. -/
def eligibleFold (s : EngineState) (seats : List (Option String)) : List EnginePlayer :=
  seats.foldr
    (fun slot list =>
      match slot with
      | none => list
      | some pid =>
        match findPlayer s pid with
        | none => list
        | some p =>
          if p.seatIndex.isSome ∧ s.handNumber ≥ p.entryHand then p :: list else list)
    []

theorem getEligible_eq_fold (s : EngineState) :
    getEligibleSeatedPlayers s = eligibleFold s s.seats := rfl

theorem eligibleFold_ge (s : EngineState) (seats : List (Option String)) :
    ∀ p ∈ eligibleFold s seats, s.handNumber ≥ p.entryHand := by
  induction seats with
  | nil => intro p hp; simp [eligibleFold] at hp
  | cons slot rest ih =>
    intro p hp
    cases slot with
    | none =>
      simp only [eligibleFold, List.foldr_cons] at hp
      exact ih p hp
    | some pid =>
      simp only [eligibleFold, List.foldr_cons] at hp
      cases hf : findPlayer s pid with
      | none =>
        simp only [hf] at hp
        exact ih p hp
      | some q =>
        simp only [hf] at hp
        by_cases hc : q.seatIndex.isSome ∧ s.handNumber ≥ q.entryHand
        · rw [if_pos hc] at hp
          rcases List.mem_cons.mp hp with hp | hp
          · subst hp; exact hc.2
          · exact ih p hp
        · rw [if_neg hc] at hp
          exact ih p hp

theorem eligibleFold_mono (s : EngineState) (slot : Option String)
    (rest : List (Option String)) (p : EnginePlayer)
    (hp : p ∈ eligibleFold s rest) : p ∈ eligibleFold s (slot :: rest) := by
  cases slot with
  | none =>
    simp only [eligibleFold, List.foldr_cons]
    exact hp
  | some pid =>
    simp only [eligibleFold, List.foldr_cons]
    cases hf : findPlayer s pid with
    | none =>
      simp only [hf]
      exact hp
    | some q =>
      simp only [hf]
      by_cases hc : q.seatIndex.isSome ∧ s.handNumber ≥ q.entryHand
      · rw [if_pos hc]
        exact List.mem_cons_of_mem _ hp
      · rw [if_neg hc]
        exact hp

theorem eligibleFold_mem (s : EngineState) (seats : List (Option String))
    (pid : String) (p : EnginePlayer)
    (hin : some pid ∈ seats) (hfind : findPlayer s pid = some p)
    (hseat : p.seatIndex.isSome) (hhand : s.handNumber ≥ p.entryHand) :
    p ∈ eligibleFold s seats := by
  induction seats with
  | nil => simp at hin
  | cons slot rest ih =>
    rcases List.mem_cons.mp hin with h | h
    · subst h
      simp only [eligibleFold, List.foldr_cons, hfind, if_pos (And.intro hseat hhand)]
      exact List.mem_cons_self _ _
    · exact eligibleFold_mono s slot rest p (ih h)

theorem seqE_fst (r : EStep) (f : EngineState → EStep) : (seqE r f).1 = (f r.1).1 := rfl

theorem broadcast_fst (s : EngineState) : (broadcast s).1 = s := rfl

theorem updatePrivate_fst (pid : String) (s : EngineState) : (updatePrivate pid s).1 = s := by
  unfold updatePrivate
  cases findPlayer s pid <;> rfl

theorem assignFirstDealer_entry (X : EngineState) (pid : String) (k : Nat) :
    (findPlayer (assignFirstDealer X pid k) pid).map (fun p => p.entryHand)
      = (findPlayer X pid).map (fun p => p.entryHand) := by
  unfold assignFirstDealer
  cases X.dealerSeat with
  | some d => rfl
  | none =>
    rw [findPlayer_updPlayer _ pid (fun p => { p with isDealer := true }) (fun p => rfl)]
    have h2 : findPlayer { X with dealerSeat := some k } pid = findPlayer X pid :=
      findPlayer_congr _ X pid rfl
    rw [h2]
    cases findPlayer X pid <;> rfl

/-- Claim C4 (amended): joining or taking a free seat while a hand is in
progress stamps `entryHand` with the current hand number plus one; every
player the engine deems eligible satisfies `handNumber ≥ entryHand`, so
the newcomer is NOT eligible when `startHand` launches the very next hand
(the comparison still sees the pre-increment hand number); they become
eligible one hand later, once the stored hand number has reached their
`entryHand`. -/
theorem C4_entry_eligibility (s : EngineState) (pid uname : String)
    (hactive : isHandActive s = true) :
    ((findPlayer s pid = none) →
      (findPlayer (join s pid uname).1 pid).map (fun p => p.entryHand)
        = some (s.handNumber + 1))
    ∧ (∀ seatIdx player, findPlayer s pid = some player →
        s.seats.getD (seatIdx - 1) none = none →
        (findPlayer (seatTake s pid seatIdx).1 pid).map (fun p => p.entryHand)
          = some (s.handNumber + 1))
    ∧ (∀ p ∈ getEligibleSeatedPlayers s, s.handNumber ≥ p.entryHand)
    ∧ (∀ pid2 p, some pid2 ∈ s.seats → findPlayer s pid2 = some p →
        p.seatIndex.isSome → s.handNumber ≥ p.entryHand →
        p ∈ getEligibleSeatedPlayers s) := by
  refine ⟨?_, ?_, ?_, ?_⟩
  · intro hnone
    unfold join
    rw [seqE_fst, broadcast_fst, updatePrivate_fst]
    rw [hnone]
    unfold findPlayer at hnone ⊢
    simp only [List.find?_append, hnone, Option.none_or]
    rw [List.find?_cons_of_pos _ (by simp)]
    simp [hactive]
  · intro seatIdx player hplayer hslot
    unfold seatTake
    rw [hplayer]
    dsimp only
    rw [hslot]
    simp only [Option.isSome_none, Bool.false_and, Bool.false_eq_true, if_false]
    rw [broadcast_fst, assignFirstDealer_entry]
    rw [findPlayer_updPlayer _ pid
      (fun p => { p with seatIndex := some seatIdx
                         entryHand := s.handNumber + (if isHandActive s then 1 else 0) })
      (fun p => rfl)]
    have hc : findPlayer
        { s with seats := (vacateOldSeat s.seats player).set (seatIdx - 1) (some pid) } pid
        = findPlayer s pid := findPlayer_congr _ s pid rfl
    rw [hc, hplayer]
    simp [hactive]
  · rw [getEligible_eq_fold]
    exact eligibleFold_ge s s.seats
  · intro pid2 p hin hfind hseat hhand
    rw [getEligible_eq_fold]
    exact eligibleFold_mem s s.seats pid2 p hin hfind hseat hhand

theorem C4_witness :
    (findPlayer (join raiseState "C" "Cara").1 "C").map (fun p => p.entryHand)
      = some 2 := by
  have h := (C4_entry_eligibility raiseState "C" "Cara" (by decide)).1 (by decide)
  exact h.trans (by decide)

/-! ## Claim C5 -/

/-- Both players run the hand to the combo phase and submit empty combos
twice: each evaluation ties, so sudden death fires twice and the boss
reveal count climbs to 7. -/
def oxtailScript : List Intent :=
  raiseScript ++
  [.betAction "A" { action := .call, amount := none },
   .betAction "B" { action := .check, amount := none },
   .betAction "A" { action := .check, amount := none },
   .betAction "B" { action := .check, amount := none },
   .betAction "A" { action := .check, amount := none },
   .betAction "B" { action := .check, amount := none },
   .comboSubmit "A" [],
   .comboSubmit "B" [],
   .betAction "A" { action := .check, amount := none },
   .betAction "B" { action := .check, amount := none },
   .comboSubmit "A" [],
   .comboSubmit "B" []]

def oxtailState : EngineState := runScript oxtailScript

/-- Claim C5 counterexample: after two consecutive tied evaluations in one
hand, the reachable state has `bossRevealedCount = 7`, exceeding the
claimed bound of 6. -/
theorem C5_counterexample :
    oxtailState.bossRevealedCount = 7
    ∧ 6 < oxtailState.bossRevealedCount
    ∧ oxtailState.phase = .oxtail
    ∧ oxtailState.bossCards.length = 7 := by
  decide

theorem updateActionMessage_fields (t : EngineState) :
    (updateActionMessage t).phase = t.phase
    ∧ (updateActionMessage t).bossRevealedCount = t.bossRevealedCount
    ∧ (updateActionMessage t).actingSeat = t.actingSeat
    ∧ (updateActionMessage t).players = t.players
    ∧ (updateActionMessage t).actedThisRound = t.actedThisRound
    ∧ (updateActionMessage t).awaitingCombo = t.awaitingCombo
    ∧ (updateActionMessage t).bossCards = t.bossCards := by
  unfold updateActionMessage
  cases t.actingSeat with
  | none => exact ⟨rfl, rfl, rfl, rfl, rfl, rfl, rfl⟩
  | some seat =>
    dsimp only
    cases getPlayerBySeat t seat <;> exact ⟨rfl, rfl, rfl, rfl, rfl, rfl, rfl⟩

theorem drawOne_length (deck : List Card) (hd : deck ≠ []) :
    (drawCardsFrom 1 deck).1.length = 1 := by
  cases hlast : deck.getLast? with
  | none => exact absurd (List.getLast?_eq_none_iff.mp hlast) hd
  | some card => simp [drawCardsFrom, hlast]

theorem runCascade_oxtailStart (s : EngineState) (n k : Nat)
    (hact : findNextActingSeat { oxtailCore s with actedThisRound := [] }
        (startSeatOf (oxtailCore s).smallBlindSeat (oxtailCore s)) true = some k) :
    runCascade (n + 2) .oxtailStart s
      = (updateActionMessage
          { oxtailCore s with actedThisRound := [], actingSeat := some k }, []) := by
  show runCascade (n + 1) (.startRound (oxtailCore s).smallBlindSeat) (oxtailCore s) = _
  simp only [runCascade]
  rw [hact]

/-- Claim C5 (amended): the revealed boss prefix starts at 3 (witnessed by
the reachable rush state), moves to 4 and then 5 as the rush and charge
rounds finish, and every sudden-death round unconditionally adds one more
revealed boss card with NO upper bound — `bossRevealedCount` is not capped
at 6 (the counterexample reaches 7). -/
theorem C5_boss_reveal_progression (s : EngineState) (n : Nat) (k : Nat)
    (hact : findNextActingSeat { oxtailCore s with actedThisRound := [] }
        (startSeatOf (oxtailCore s).smallBlindSeat (oxtailCore s)) true = some k) :
    (oxtailCore s).bossRevealedCount = s.bossRevealedCount + 1
    ∧ (s.deck ≠ [] → (oxtailCore s).bossCards.length = s.bossCards.length + 1)
    ∧ runCascade (n + 2) .oxtailStart s
        = (updateActionMessage
            { oxtailCore s with actedThisRound := [], actingSeat := some k }, [])
    ∧ (runCascade (n + 2) .oxtailStart s).1.phase = .oxtail
    ∧ (runCascade (n + 2) .oxtailStart s).1.bossRevealedCount = s.bossRevealedCount + 1
    ∧ (∀ t m, t.phase = .rush → 1 < (activePlayers t).length →
        runCascade (m + 1) .finishDispatch t
          = runCascade m (.startRound t.smallBlindSeat)
              { t with phase := .charge, bossRevealedCount := 4 })
    ∧ (∀ t m, t.phase = .charge → 1 < (activePlayers t).length →
        runCascade (m + 1) .finishDispatch t
          = runCascade m (.startRound t.smallBlindSeat)
              { t with phase := .stomp, bossRevealedCount := 5 })
    ∧ raiseState.bossRevealedCount = 3 := by
  have hrun := runCascade_oxtailStart s n k hact
  refine ⟨rfl, ?_, hrun, ?_, ?_, ?_, ?_, by decide⟩
  · intro hd
    show (s.bossCards ++ (drawCardsFrom 1 s.deck).1).length = s.bossCards.length + 1
    rw [List.length_append, drawOne_length s.deck hd]
  · rw [hrun]
    exact (updateActionMessage_fields _).1
  · rw [hrun]
    exact (updateActionMessage_fields _).2.1
  · intro t m hp hl
    simp only [runCascade]
    rw [if_neg (by omega), hp]
  · intro t m hp hl
    simp only [runCascade]
    rw [if_neg (by omega), hp]

/-- A sudden-death-ready state: two seated active players, one card left in
the deck, six boss cards already revealed. -/
def c5State : EngineState :=
  { initialState with
      phase := .combo
      smallBlindSeat := some 1
      bossRevealedCount := 6
      deck := [{ id := "K-spades-51", rank := .K, suit := .spades }]
      seats := [some "A", some "B", none, none, none, none]
      players :=
        [{ basePlayer "A" with inHand := true, seatIndex := some 1, stack := 100 },
         { basePlayer "B" with inHand := true, seatIndex := some 2, stack := 100 }] }

theorem C5_witness :
    (runCascade 5 .oxtailStart c5State).1.bossRevealedCount = 7 := by
  have h := C5_boss_reveal_progression c5State 3 1 (by decide)
  exact h.2.2.2.2.1.trans (by decide)

/-! ## Claim C8 -/

theorem find?_map_proj (l : List EnginePlayer) (pid : String)
    (f : EnginePlayer → EnginePlayer)
    (hid : ∀ p, (f p).id = p.id) (hst : ∀ p, (f p).stack = p.stack) :
    (((l.map f).find? (fun p => p.id = pid)).map (fun p => p.stack))
      = ((l.find? (fun p => p.id = pid)).map (fun p => p.stack)) := by
  induction l with
  | nil => rfl
  | cons q rest ih =>
    by_cases h : q.id = pid
    · rw [List.map_cons,
        List.find?_cons_of_pos _ (by simpa [hid] using h),
        List.find?_cons_of_pos _ (by simpa using h)]
      simp [hst]
    · rw [List.map_cons,
        List.find?_cons_of_neg _ (by simpa [hid] using h),
        List.find?_cons_of_neg _ (by simpa using h)]
      exact ih

theorem find?_map_upd_ne (l : List EnginePlayer) (q pid : String) (hne : q ≠ pid)
    (f : EnginePlayer → EnginePlayer) (hid : ∀ p, (f p).id = p.id) :
    (l.map (fun p => if p.id = q then f p else p)).find? (fun p => p.id = pid)
      = l.find? (fun p => p.id = pid) := by
  induction l with
  | nil => rfl
  | cons x rest ih =>
    by_cases hx : x.id = pid
    · have hxq : ¬x.id = q := fun h => hne (h ▸ hx.symm ▸ rfl)
      rw [List.map_cons, if_neg hxq,
        List.find?_cons_of_pos _ (by simpa using hx),
        List.find?_cons_of_pos _ (by simpa using hx)]
    · by_cases hxq : x.id = q
      · rw [List.map_cons, if_pos hxq,
          List.find?_cons_of_neg _ (by simp [hid, hx]),
          List.find?_cons_of_neg _ (by simpa using hx)]
        exact ih
      · rw [List.map_cons, if_neg hxq,
          List.find?_cons_of_neg _ (by simpa using hx),
          List.find?_cons_of_neg _ (by simpa using hx)]
        exact ih

theorem findPlayer_updPlayer_ne (t : EngineState) (q pid : String) (hne : q ≠ pid)
    (f : EnginePlayer → EnginePlayer) (hid : ∀ p, (f p).id = p.id) :
    findPlayer (updPlayer t q f) pid = findPlayer t pid :=
  find?_map_upd_ne t.players q pid hne f hid

theorem find?_of_mem_nodup (l : List EnginePlayer) (p : EnginePlayer)
    (hp : p ∈ l) (hnodup : (l.map (fun x => x.id)).Nodup) :
    l.find? (fun x => x.id = p.id) = some p := by
  induction l with
  | nil => simp at hp
  | cons q rest ih =>
    rw [List.map_cons, List.nodup_cons] at hnodup
    rcases List.mem_cons.mp hp with h | h
    · subst h
      rw [List.find?_cons_of_pos _ (by simp)]
    · by_cases hq : q.id = p.id
      · exact absurd (by rw [hq]; exact List.mem_map.mpr ⟨p, h, rfl⟩) hnodup.1
      · rw [List.find?_cons_of_neg _ (by simpa using hq)]
        exact ih h hnodup.2

theorem findPlayer_of_mem_nodup (t : EngineState) (p : EnginePlayer)
    (hp : p ∈ t.players) (hnodup : (t.players.map (fun x => x.id)).Nodup) :
    findPlayer t p.id = some p :=
  find?_of_mem_nodup t.players p hp hnodup

theorem rotateDealer_stack (t : EngineState) (pid : String) :
    ((findPlayer (rotateDealer t) pid).map (fun p => p.stack))
      = ((findPlayer t pid).map (fun p => p.stack)) := by
  unfold rotateDealer
  cases t.dealerSeat with
  | none =>
    dsimp only
    cases getNextOccupiedSeat t 1 <;> rfl
  | some d =>
    dsimp only
    cases getNextOccupiedSeat t d with
    | none => rfl
    | some next =>
      dsimp only
      exact find?_map_proj t.players pid _ (fun p => rfl) (fun p => rfl)

theorem rotateDealer_phase (t : EngineState) : (rotateDealer t).phase = t.phase := by
  unfold rotateDealer
  cases t.dealerSeat with
  | none =>
    dsimp only
    cases getNextOccupiedSeat t 1 <;> rfl
  | some d =>
    dsimp only
    cases getNextOccupiedSeat t d <;> rfl

theorem endHand_phase (t : EngineState) : (endHand t).1.phase = .waiting := by
  unfold endHand
  rw [broadcast_fst]
  show (rotateDealer _).phase = _
  rw [rotateDealer_phase]

theorem endHand_stack (t : EngineState) (pid : String) :
    ((findPlayer (endHand t).1 pid).map (fun p => p.stack))
      = ((findPlayer t pid).map (fun p => p.stack)) := by
  unfold endHand
  rw [broadcast_fst]
  have h1 := find?_map_proj (rotateDealer
      { t with phase := .waiting, bossCards := [], bossRevealedCount := 0,
               bossVisible := false, actingSeat := none,
               message := "Waiting for dealer", awaitingCombo := [],
               comboQueue := [], comboIndex := 0 }).players pid
    (fun p => { p with inHand := false, hasFolded := false, comboSelection := [],
                       comboRevealed := none, betThisRound := 0 })
    (fun p => rfl) (fun p => rfl)
  refine h1.trans ?_
  exact rotateDealer_stack _ pid

theorem foldl_award_stack_notmem (pids : List String) (award : Int) (pid : String)
    (hnot : pid ∉ pids) :
    ∀ t : EngineState,
      findPlayer (pids.foldl
        (fun s q => updPlayer s q (fun p => { p with stack := p.stack + award })) t) pid
      = findPlayer t pid := by
  induction pids with
  | nil => intro t; rfl
  | cons q rest ih =>
    intro t
    rw [List.foldl_cons]
    have hq : q ≠ pid := fun h => hnot (h ▸ List.mem_cons_self _ _)
    rw [ih (fun h => hnot (List.mem_cons_of_mem _ h))]
    exact findPlayer_updPlayer_ne t q pid hq
      (fun p => { p with stack := p.stack + award }) (fun p => rfl)

theorem foldl_award_stack_mem (pids : List String) (award : Int) (pid : String)
    (hmem : pid ∈ pids) (hnodup : pids.Nodup) :
    ∀ t : EngineState,
      ((findPlayer (pids.foldl
          (fun s q => updPlayer s q (fun p => { p with stack := p.stack + award })) t)
        pid).map (fun p => p.stack))
      = ((findPlayer t pid).map (fun p => p.stack + award)) := by
  induction pids with
  | nil => simp at hmem
  | cons q rest ih =>
    intro t
    rw [List.foldl_cons]
    rw [List.nodup_cons] at hnodup
    rcases List.mem_cons.mp hmem with h | h
    · subst h
      rw [foldl_award_stack_notmem rest award pid hnodup.1]
      rw [findPlayer_updPlayer t pid
        (fun p => { p with stack := p.stack + award }) (fun p => rfl)]
      cases findPlayer t pid <;> rfl
    · rw [ih h hnodup.2]
      have hq : q ≠ pid := fun hqe => hnodup.1 (hqe ▸ h)
      rw [findPlayer_updPlayer_ne t q pid hq
        (fun p => { p with stack := p.stack + award }) (fun p => rfl)]

theorem evalTies_ids_sublist (s : EngineState) :
    ((evalTies s).map (fun e => e.playerId)).Sublist (s.players.map (fun p => p.id)) := by
  have h1 : (evalTies s).Sublist (evalEntries s) := by
    unfold evalTies
    cases evalBest s with
    | none => simp
    | some best => exact List.filter_sublist _
  have h2 : ((evalTies s).map (fun e => e.playerId)).Sublist
      ((evalEntries s).map (fun e => e.playerId)) := h1.map _
  refine h2.trans ?_
  have h3 : ((evalEntries s).map (fun e => e.playerId))
      = (((activePlayers s).filter (fun p => !p.hasFolded)).map (fun p => p.id)) := by
    unfold evalEntries
    rw [List.map_map]
    rfl
  rw [h3]
  have h4 : (((activePlayers s).filter (fun p => !p.hasFolded))).Sublist s.players :=
    (List.filter_sublist _).trans (List.filter_sublist _)
  exact h4.map _

theorem evalTies_ids_nodup (s : EngineState)
    (h : (s.players.map (fun p => p.id)).Nodup) :
    ((evalTies s).map (fun e => e.playerId)).Nodup :=
  h.sublist (evalTies_ids_sublist s)

theorem splitPot_fst_phase (pids : List String) (s : EngineState) :
    (splitPot pids s).1.phase = .waiting := by
  unfold splitPot
  dsimp only
  rw [seqE_fst]
  exact endHand_phase _

theorem splitPot_fst_stack (pids : List String) (s : EngineState) (pid : String)
    (hmem : pid ∈ pids) (hnodup : pids.Nodup) :
    ((findPlayer (splitPot pids s).1 pid).map (fun p => p.stack))
      = ((findPlayer s pid).map (fun p =>
          p.stack + Int.fdiv (totalPot s) (pids.length : Int))) := by
  unfold splitPot
  dsimp only
  rw [seqE_fst]
  rw [endHand_stack]
  show ((findPlayer (awardEach pids (Int.fdiv (totalPot s) (pids.length : Int)) s)
      pid).map (fun p => p.stack)) = _
  unfold awardEach
  rw [foldl_award_stack_mem pids (Int.fdiv (totalPot s) (pids.length : Int)) pid
    hmem hnodup s]

/-- Claim C8: when combo evaluation finds more than one best-ranked player
under the three ordered keys, then with an empty deck the pot is split —
each tied winner's stack grows by `floor(pot / ties)` and the hand ends in
the waiting phase — and with a non-empty deck the phase becomes oxtail,
exactly one more boss card is drawn and revealed, and a fresh betting
round starts anchored at the small-blind seat with a cleared acted set. -/
theorem C8_tie_resolution (s : EngineState) (n : Nat)
    (hties : 1 < (evalTies s).length)
    (hnodup : (s.players.map (fun p => p.id)).Nodup) :
    (s.deck = [] →
      runCascade (n + 3) .evalCombos s
          = splitPot ((evalTies s).map (fun e => e.playerId)) s
      ∧ (runCascade (n + 3) .evalCombos s).1.phase = .waiting
      ∧ ∀ p ∈ s.players, p.id ∈ (evalTies s).map (fun e => e.playerId) →
          (findPlayer (runCascade (n + 3) .evalCombos s).1 p.id).map (fun q => q.stack)
            = some (p.stack + Int.fdiv (totalPot s)
                (((evalTies s).map (fun e => e.playerId)).length : Int)))
    ∧ (s.deck ≠ [] → ∀ k,
        findNextActingSeat { oxtailCore s with actedThisRound := [] }
            (startSeatOf (oxtailCore s).smallBlindSeat (oxtailCore s)) true = some k →
        runCascade (n + 3) .evalCombos s
            = (updateActionMessage
                { oxtailCore s with actedThisRound := [], actingSeat := some k }, [])
        ∧ (runCascade (n + 3) .evalCombos s).1.phase = .oxtail
        ∧ (runCascade (n + 3) .evalCombos s).1.bossRevealedCount
            = s.bossRevealedCount + 1
        ∧ (runCascade (n + 3) .evalCombos s).1.bossCards.length
            = s.bossCards.length + 1
        ∧ (runCascade (n + 3) .evalCombos s).1.actedThisRound = []) := by
  have hcont : ((activePlayers s).filter (fun p => !p.hasFolded)).isEmpty = false := by
    cases hc : (activePlayers s).filter (fun p => !p.hasFolded) with
    | cons a l => rfl
    | nil =>
      exfalso
      have hte : evalTies s = [] := by
        unfold evalTies evalBest sortEntries evalEntries
        rw [hc]
        rfl
      rw [hte] at hties
      simp at hties
  have hstep : runCascade (n + 3) .evalCombos s
      = if s.deck.isEmpty then splitPot ((evalTies s).map (fun e => e.playerId)) s
        else runCascade (n + 2) .oxtailStart s := by
    show runCascade (n + 2 + 1) .evalCombos s = _
    rw [runCascade]
    dsimp only
    rw [hcont]
    simp only [Bool.false_eq_true, if_false]
    rw [if_pos hties]
  constructor
  · intro hd
    have hde : s.deck.isEmpty = true := by rw [hd]; rfl
    have heq : runCascade (n + 3) .evalCombos s
        = splitPot ((evalTies s).map (fun e => e.playerId)) s := by
      rw [hstep, if_pos hde]
    refine ⟨heq, ?_, ?_⟩
    · rw [heq]
      exact splitPot_fst_phase _ s
    · intro p hp hpin
      rw [heq]
      rw [splitPot_fst_stack _ s p.id hpin (evalTies_ids_nodup s hnodup)]
      rw [findPlayer_of_mem_nodup s p hp hnodup]
      rfl
  · intro hd k hact
    have hde : s.deck.isEmpty = false := by
      cases hdk : s.deck with
      | nil => exact absurd hdk hd
      | cons a l => rfl
    have heq : runCascade (n + 3) .evalCombos s
        = (updateActionMessage
            { oxtailCore s with actedThisRound := [], actingSeat := some k }, []) := by
      rw [hstep, hde]
      simp only [Bool.false_eq_true, if_false]
      exact runCascade_oxtailStart s n k hact
    obtain ⟨hph, hbr, _, _, hacted, _, hbc⟩ := updateActionMessage_fields
      { oxtailCore s with actedThisRound := [], actingSeat := some k }
    refine ⟨heq, ?_, ?_, ?_, ?_⟩
    · rw [heq]
      exact hph
    · rw [heq]
      exact hbr
    · rw [heq]
      rw [hbc]
      show (s.bossCards ++ (drawCardsFrom 1 s.deck).1).length = _
      rw [List.length_append, drawOne_length s.deck hd]
    · rw [heq]
      exact hacted

theorem C8_witness :
    (runCascade 7 .evalCombos c5State).1.phase = .oxtail
    ∧ (runCascade 7 .evalCombos c5State).1.bossRevealedCount = 7 := by
  have h := (C8_tie_resolution c5State 4 (by decide) (by decide)).2
    (by decide) 1 (by decide)
  exact ⟨h.2.1, h.2.2.1.trans (by decide)⟩

/-! ## Claim C6 -/

theorem broadcast_noErrors (s : EngineState) :
    ∀ e ∈ (broadcast s).2, isErrorEvent e = false := by
  intro e he
  unfold broadcast at he
  rcases List.mem_append.mp he with h | h
  · obtain ⟨p, _, hpe⟩ := List.mem_map.mp h
    rw [← hpe]
    rfl
  · rw [List.mem_singleton.mp h]
    rfl

theorem endHand_noErrors (t : EngineState) :
    ∀ e ∈ (endHand t).2, isErrorEvent e = false := by
  intro e he
  exact broadcast_noErrors _ e he

theorem seqE_noErrors (r : EStep) (f : EngineState → EStep)
    (h1 : ∀ e ∈ r.2, isErrorEvent e = false)
    (h2 : ∀ t, ∀ e ∈ (f t).2, isErrorEvent e = false) :
    ∀ e ∈ (seqE r f).2, isErrorEvent e = false := by
  intro e he
  unfold seqE at he
  rcases List.mem_append.mp he with h | h
  · exact h1 e h
  · exact h2 _ e h

theorem resolveHandByFold_noErrors (t : EngineState) :
    ∀ e ∈ (resolveHandByFold t).2, isErrorEvent e = false := by
  unfold resolveHandByFold
  cases (activePlayers t).head? with
  | none => exact endHand_noErrors _
  | some recipient =>
    dsimp only
    apply seqE_noErrors
    · intro e he
      rw [List.mem_singleton.mp he]
      rfl
    · intro t2
      exact endHand_noErrors t2

theorem splitPot_noErrors (pids : List String) (t : EngineState) :
    ∀ e ∈ (splitPot pids t).2, isErrorEvent e = false := by
  unfold splitPot
  dsimp only
  apply seqE_noErrors
  · intro e he
    rw [List.mem_singleton.mp he]
    rfl
  · intro t2
    exact endHand_noErrors t2

theorem awardPot_noErrors (pid : String) (t : EngineState) :
    ∀ e ∈ (awardPot pid t).2, isErrorEvent e = false := by
  unfold awardPot
  dsimp only
  apply seqE_noErrors
  · intro e he
    rw [List.mem_singleton.mp he]
    rfl
  · intro t2
    exact endHand_noErrors t2

theorem runCascade_noErrors :
    ∀ (n : Nat) (c : Cascade) (s : EngineState),
      ∀ e ∈ (runCascade n c s).2, isErrorEvent e = false := by
  intro n
  induction n with
  | zero =>
    intro c s e he
    simp [runCascade] at he
  | succ n ih =>
    intro c s e he
    cases c with
    | finishRound => exact ih _ _ e he
    | finishDispatch =>
      rw [runCascade] at he
      try dsimp only at he
      split at he
      · exact resolveHandByFold_noErrors _ e he
      · split at he
        · exact ih _ _ e he
        · exact ih _ _ e he
        · exact ih _ _ e he
        · exact ih _ _ e he
        · simp at he
    | startRound ref =>
      rw [runCascade] at he
      try dsimp only at he
      split at he
      · exact ih _ _ e he
      · simp at he
    | enterCombo oxtail =>
      rw [runCascade] at he
      try dsimp only at he
      split at he
      · split at he
        · exact ih _ _ e he
        · split at he
          · exact broadcast_noErrors _ e he
          · exact ih _ _ e he
      · split at he
        · exact ih _ _ e he
        · split at he
          · exact broadcast_noErrors _ e he
          · exact ih _ _ e he
    | evalCombos =>
      rw [runCascade] at he
      try dsimp only at he
      split at he
      · exact resolveHandByFold_noErrors _ e he
      · split at he
        · split at he
          · exact splitPot_noErrors _ _ e he
          · exact ih _ _ e he
        · split at he
          · exact awardPot_noErrors _ _ e he
          · simp at he
    | oxtailStart =>
      rw [runCascade] at he
      exact ih _ _ e he
    | advance =>
      rw [runCascade] at he
      try dsimp only at he
      split at he
      · simp at he
      · split at he
        · exact ih _ _ e he
        · split at he
          · exact ih _ _ e he
          · simp at he

theorem comboScan_found (s : EngineState) :
    ∀ (q : List Nat) (idx i seat : Nat),
      comboScan s q idx = some (i, seat) →
      ∃ p, getPlayerBySeat s seat = some p
        ∧ s.awaitingCombo.contains p.id = true
        ∧ p.inHand = true ∧ p.hasFolded = false
        ∧ seat ∈ q := by
  intro q
  induction q with
  | nil =>
    intro idx i seat h
    simp [comboScan] at h
  | cons st rest ih =>
    intro idx i seat h
    unfold comboScan at h
    cases hg : getPlayerBySeat s st with
    | none =>
      simp only [hg] at h
      obtain ⟨p, h1, h2, h3, h4, h5⟩ := ih (idx + 1) i seat h
      exact ⟨p, h1, h2, h3, h4, List.mem_cons_of_mem _ h5⟩
    | some p =>
      simp only [hg] at h
      cases hb : (s.awaitingCombo.contains p.id && p.inHand && !p.hasFolded) with
      | true =>
        rw [hb] at h
        simp only [if_true] at h
        injection h with h1
        injection h1 with h1 h2
        subst h2
        rw [Bool.and_eq_true, Bool.and_eq_true] at hb
        exact ⟨p, hg, hb.1.1, hb.1.2, by simpa using hb.2, List.mem_cons_self _ _⟩
      | false =>
        rw [hb] at h
        simp only [Bool.false_eq_true, if_false] at h
        obtain ⟨p2, h1, h2, h3, h4, h5⟩ := ih (idx + 1) i seat h
        exact ⟨p2, h1, h2, h3, h4, List.mem_cons_of_mem _ h5⟩

theorem setNextComboActor_true (t : EngineState) (startIndex : Nat) (t2 : EngineState)
    (h : setNextComboActor t startIndex = (t2, true)) :
    ∃ seat p, t2.actingSeat = some seat
      ∧ getPlayerBySeat t seat = some p
      ∧ t.awaitingCombo.contains p.id = true
      ∧ p.inHand = true ∧ p.hasFolded = false
      ∧ seat ∈ t.comboQueue := by
  unfold setNextComboActor at h
  cases hscan : comboScan t (t.comboQueue.drop startIndex) startIndex with
  | none =>
    rw [hscan] at h
    injection h with h1 h2
    exact absurd h2 (by simp)
  | some pr =>
    obtain ⟨i, seat⟩ := pr
    rw [hscan] at h
    injection h with h1 h2
    obtain ⟨p, hg, hw, hin, hf, hmemq⟩ := comboScan_found t _ startIndex i seat hscan
    refine ⟨seat, p, ?_, hg, hw, hin, hf, (List.drop_sublist _ _).mem hmemq⟩
    rw [← h1]
    exact ((updateActionMessage_fields _).2.2.1).trans rfl

/-- Claim C6: during the combo phase, a submission from the player at the
head of the queue whose sanitized total exceeds the boss total is rejected
with an error and the state is unchanged; otherwise the selection is
locked and revealed, the player leaves the waiting set, no error is ever
emitted, and the queue advances to the next eligible waiting player (with
evaluation running immediately when none remains). -/
theorem C6_comboSubmit_gate (s : EngineState) (pid : String)
    (sels : List ComboSelection) (player : EnginePlayer)
    (hp : findPlayer s pid = some player)
    (hin : player.inHand = true) (hf : player.hasFolded = false)
    (hphase : s.phase = .combo)
    (hwait : s.awaitingCombo.contains pid = true)
    (hseatk : player.seatIndex = s.actingSeat)
    (hsome : s.actingSeat ≠ none)
    (hnodupw : s.awaitingCombo.Nodup) :
    (computeBossTotal s < computeComboTotal player (sanitizeSelections player sels) →
      comboSubmit s pid sels
        = (s, [.errorEv (some pid) "Combo exceeds Boss total"]))
    ∧ (computeComboTotal player (sanitizeSelections player sels) ≤ computeBossTotal s →
        (∀ e ∈ (comboSubmit s pid sels).2, isErrorEvent e = false)
        ∧ ((findPlayer (lockCombo s pid player (sanitizeSelections player sels)) pid).map
              (fun p => p.comboRevealed))
            = some (some ((sanitizeSelections player sels).filterMap
                (fun x => findCardInHand player x.cardId)))
        ∧ (lockCombo s pid player (sanitizeSelections player sels)).awaitingCombo.contains
            pid = false
        ∧ comboSubmit s pid sels
            = (let s1 := lockCombo s pid player (sanitizeSelections player sels)
               if s1.awaitingCombo.isEmpty then
                 runCascade FUEL .evalCombos
                   (updateActionMessage { s1 with actingSeat := none })
               else
                 match setNextComboActor s1 (s1.comboIndex + 1) with
                 | (s2, false) => runCascade FUEL .evalCombos s2
                 | (s2, true) => broadcast s2))
    ∧ (∀ t idx t2, setNextComboActor t idx = (t2, true) →
        ∃ seat p2, t2.actingSeat = some seat
          ∧ getPlayerBySeat t seat = some p2
          ∧ t.awaitingCombo.contains p2.id = true
          ∧ p2.inHand = true ∧ p2.hasFolded = false ∧ seat ∈ t.comboQueue) := by
  have hguard : comboSubmit s pid sels
      = (if computeComboTotal player (sanitizeSelections player sels)
            > computeBossTotal s then
          (s, [.errorEv (some pid) "Combo exceeds Boss total"])
        else
          let s1 := lockCombo s pid player (sanitizeSelections player sels)
          if s1.awaitingCombo.isEmpty then
            runCascade FUEL .evalCombos (updateActionMessage { s1 with actingSeat := none })
          else
            match setNextComboActor s1 (s1.comboIndex + 1) with
            | (s2, false) => runCascade FUEL .evalCombos s2
            | (s2, true) => broadcast s2) := by
    unfold comboSubmit
    rw [hp]
    dsimp only
    rw [hin, hf]
    simp only [Bool.not_true, Bool.false_or, Bool.false_eq_true, if_false]
    rw [if_neg (by rw [hphase]; exact fun h => h rfl)]
    rw [hwait]
    simp only [Bool.not_true, Bool.false_eq_true, if_false]
    rw [if_neg ?hseat]
    case hseat =>
      rintro (h1 | h2)
      · exact hsome (hseatk ▸ h1)
      · exact h2 hseatk
  refine ⟨?_, ?_, fun t idx t2 h => setNextComboActor_true t idx t2 h⟩
  · intro hover
    rw [hguard, if_pos hover]
  · intro hle
    have heq : comboSubmit s pid sels
        = (let s1 := lockCombo s pid player (sanitizeSelections player sels)
           if s1.awaitingCombo.isEmpty then
             runCascade FUEL .evalCombos (updateActionMessage { s1 with actingSeat := none })
           else
             match setNextComboActor s1 (s1.comboIndex + 1) with
             | (s2, false) => runCascade FUEL .evalCombos s2
             | (s2, true) => broadcast s2) := by
      rw [hguard, if_neg (not_lt.mpr hle)]
    refine ⟨?_, ?_, ?_, heq⟩
    · intro e he
      rw [heq] at he
      dsimp only at he
      split at he
      · exact runCascade_noErrors _ _ _ e he
      · split at he
        · exact runCascade_noErrors _ _ _ e he
        · exact broadcast_noErrors _ e he
    · show ((findPlayer (updPlayer s pid (fun p =>
          { p with comboSelection := sanitizeSelections player sels
                   comboRevealed := some ((sanitizeSelections player sels).filterMap
                     (fun selection => findCardInHand player selection.cardId)) })) pid).map
            (fun p => p.comboRevealed)) = _
      rw [findPlayer_updPlayer s pid
        (fun p => { p with comboSelection := sanitizeSelections player sels
                           comboRevealed := some ((sanitizeSelections player sels).filterMap
                             (fun selection => findCardInHand player selection.cardId)) })
        (fun p => rfl), hp]
      rfl
    · have hnotin : pid ∉ s.awaitingCombo.erase pid := by
        intro hmem
        exact absurd ((hnodupw.mem_erase_iff).mp hmem).1 (fun h => h rfl)
      show (s.awaitingCombo.erase pid).contains pid = false
      cases hb : (s.awaitingCombo.erase pid).contains pid with
      | false => rfl
      | true => exact absurd (List.elem_iff.mp hb) hnotin

/-- The reachable state just after the stomp round: combo phase, queue
anchored at the small blind (seat 1), both players waiting. -/
def comboState : EngineState :=
  runScript (raiseScript ++
    [.betAction "A" { action := .call, amount := none },
     .betAction "B" { action := .check, amount := none },
     .betAction "A" { action := .check, amount := none },
     .betAction "B" { action := .check, amount := none },
     .betAction "A" { action := .check, amount := none },
     .betAction "B" { action := .check, amount := none }])

def comboPlayerA : EnginePlayer :=
  (findPlayer comboState "A").getD (basePlayer "A")

theorem C6_witness :
    (lockCombo comboState "A" comboPlayerA
        (sanitizeSelections comboPlayerA [])).awaitingCombo.contains "A" = false := by
  have h := (C6_comboSubmit_gate comboState "A" [] comboPlayerA (by decide) (by decide)
    (by decide) (by decide) (by decide) (by decide) (by decide) (by decide)).2.1
    (by decide)
  exact h.2.2.1

end TheBoss
